import Mathlib

/-!
Verification development for the UTXO-wallet synchronization engine core
(address discovery, gap-limit lookahead, fresh-index search, per-address
reconciliation of balances, transactions and UTXOs, and the server-pool
broadcast path).

The engine source (makeUtxoEngineState and makeServerStates) is embedded
shallowly: the persistent store (Processor) becomes an explicit state record
threaded through the functions, asynchronous calls become sequential
composition, fallible code returns Option, and the external collaborators
(Blockbook indexer, key manager wallet tools) become records of pure
functions.  Decimal-string balances are represented as Int, matching the
arbitrary-precision decimal semantics of the biggystring library.
-/

/-- The HD derivation formats supported by the wallet (spec data model). -/
inductive CurrencyFormat
  | bip32
  | bip44
  | bip49
  | bip84
deriving DecidableEq

/-- BIP-43 purpose markers. -/
inductive BIP43PurposeTypeEnum
  | airbitz
  | legacy
  | wrappedSegwit
  | segwit
deriving DecidableEq

/-- Script classification of stored UTXOs. -/
inductive ScriptTypeEnum
  | p2pkh
  | p2wpkhp2sh
  | p2wpkh
deriving DecidableEq

/-- A full derivation path: (format, changeIndex, addressIndex). -/
structure AddressPath where
  format : CurrencyFormat
  changeIndex : Nat
  addressIndex : Nat
deriving DecidableEq

/-- Modelled from the spec: the engine utils module (not part of the given
source files) maps each format to its BIP-43 purpose type; per the spec data
model the formats enumerate bip32-legacy, bip44-legacy a.k.a. Airbitz,
bip49-wrapped-segwit and bip84-segwit. -/
def currencyFormatToPurposeType : CurrencyFormat → BIP43PurposeTypeEnum
  | .bip32 => .legacy
  | .bip44 => .airbitz
  | .bip49 => .wrappedSegwit
  | .bip84 => .segwit

/-- Modelled from the spec: inverse of the format-to-purpose mapping. -/
def getCurrencyFormatFromPurposeType : BIP43PurposeTypeEnum → CurrencyFormat
  | .legacy => .bip32
  | .airbitz => .bip44
  | .wrappedSegwit => .bip49
  | .segwit => .bip84

/-- Modelled from the spec: supportedBranches(format) is the singleton 0 when
the format purpose is legacy or Airbitz, and 0,1 (receive and change)
otherwise. -/
def getFormatSupportedBranches (format : CurrencyFormat) : List Nat :=
  match currencyFormatToPurposeType format with
  | .legacy => [0]
  | .airbitz => [0]
  | _ => [0, 1]

/-- An address record of the store (IAddress of the db types, per the spec
data model): keyed by scriptPubkey, with an optional derivation path, the
used flag, the (confirmed + unconfirmed) balance and bookkeeping fields. -/
structure IAddress where
  scriptPubkey : String
  path : Option AddressPath
  used : Bool
  balance : Int
  networkQueryVal : Nat
  lastQuery : Nat
  lastTouched : Nat
deriving DecidableEq

/-- A stored UTXO record, keyed by id = txid_vout. -/
structure IUTXO where
  id : String
  txid : String
  vout : Nat
  value : Int
  scriptPubkey : String
  script : String
  redeemScript : Option String
  scriptType : ScriptTypeEnum
  blockHeight : Nat
deriving DecidableEq

/-- An input of a normalized transaction record. -/
structure TxInputRec where
  txId : String
  outputIndex : Option Nat
  scriptPubkey : String
  amount : Int
deriving DecidableEq

/-- An output of a normalized transaction record. -/
structure TxOutputRec where
  index : Nat
  scriptPubkey : String
  amount : Int
deriving DecidableEq

/-- The store's canonical transaction form (ProcessorTransaction). -/
structure ProcessorTransaction where
  txid : String
  hex : String
  blockHeight : Nat
  date : Int
  fees : Int
  inputs : List TxInputRec
  outputs : List TxOutputRec
  ourIns : List String
  ourOuts : List String
  ourAmount : Int
deriving DecidableEq

/-- Lookup in a list by a key projection (first entry whose key is k). -/
def keyedFind {α κ : Type} [DecidableEq κ] (key : α → κ) (l : List α) (k : κ) :
    Option α :=
  l.find? (fun y => decide (key y = k))

/-- Keyed insert-or-replace: if an entry with the key of x exists, every such
entry is replaced by x (a keyed store holds one record per key), otherwise x
is appended. -/
def keyedUpsert {α κ : Type} [DecidableEq κ] (key : α → κ) (l : List α) (x : α) :
    List α :=
  if l.any (fun y => decide (key y = key x)) then
    l.map (fun y => if key y = key x then x else y)
  else l ++ [x]

/-- The persistent store (Processor) state.  Modelled from the spec: address
records are kept by scriptPubkey, and a path partition per (format,
changeIndex) maps each addressIndex to the scriptPubkey saved for it, so that
the per-branch address count is the partition length. -/
structure Store where
  addrs : List IAddress
  pathPartitions : List ((CurrencyFormat × Nat) × List String)
  utxos : List IUTXO
  txs : List ProcessorTransaction
deriving DecidableEq

/-- The store with no records. -/
def emptyStore : Store :=
  { addrs := [], pathPartitions := [], utxos := [], txs := [] }

/-- The scriptPubkey-per-index list of one branch partition. -/
def getPartition (s : Store) (f : CurrencyFormat) (c : Nat) : List String :=
  match keyedFind (fun e => e.1) s.pathPartitions (f, c) with
  | some e => e.2
  | none => []

/-- Replace one branch partition wholesale. -/
def setPartition (s : Store) (f : CurrencyFormat) (c : Nat) (l : List String) :
    Store :=
  { s with pathPartitions := keyedUpsert (fun e => e.1) s.pathPartitions ((f, c), l) }

/-- Store interface: number of addresses saved in a branch partition. -/
def Store.fetchAddressCountFromPathPartition (s : Store) (f : CurrencyFormat)
    (c : Nat) : Nat :=
  (getPartition s f c).length

/-- Store interface: the scriptPubkey saved for a full path, if any. -/
def Store.fetchScriptPubkeyByPath (s : Store) (p : AddressPath) : Option String :=
  (getPartition s p.format p.changeIndex)[p.addressIndex]?

/-- Store interface: the address record keyed by a scriptPubkey, if any. -/
def Store.fetchAddressByScriptPubkey (s : Store) (spk : String) : Option IAddress :=
  keyedFind (fun r => r.scriptPubkey) s.addrs spk

/-- Write v at index i of a partition list: in-range indices are overwritten
and the index just past the end appends (the store's partitions are grown
contiguously; further indices are out of the modelled behaviour and leave the
list unchanged). -/
def writeAt (l : List String) (i : Nat) (v : String) : List String :=
  if i < l.length then l.set i v
  else if i = l.length then l ++ [v]
  else l

/-- Store interface: save (insert or replace) an address record under its
scriptPubkey; when the record carries a path, the path partition is indexed
as well. -/
def Store.saveAddress (s : Store) (r : IAddress) : Store :=
  let s1 : Store := { s with addrs := keyedUpsert (fun x => x.scriptPubkey) s.addrs r }
  match r.path with
  | none => s1
  | some p =>
      setPartition s1 p.format p.changeIndex
        (writeAt (getPartition s1 p.format p.changeIndex) p.addressIndex r.scriptPubkey)

/-- Store interface: partial update of the balance and used fields of the
record keyed by spk (absent key: no record is touched). -/
def Store.updateAddressByScriptPubkey (s : Store) (spk : String) (balance : Int)
    (used : Bool) : Store :=
  { s with addrs := s.addrs.map (fun r =>
      if r.scriptPubkey = spk then { r with balance := balance, used := used } else r) }

/-- Store interface: all stored UTXOs whose scriptPubkey is spk. -/
def Store.fetchUtxosByScriptPubkey (s : Store) (spk : String) : List IUTXO :=
  s.utxos.filter (fun u => decide (u.scriptPubkey = spk))

/-- Store interface: save (insert or replace) a UTXO record under its id. -/
def Store.saveUtxo (s : Store) (u : IUTXO) : Store :=
  { s with utxos := keyedUpsert (fun x => x.id) s.utxos u }

/-- Store interface: remove the UTXO record with the id of u. -/
def Store.removeUtxo (s : Store) (u : IUTXO) : Store :=
  { s with utxos := s.utxos.filter (fun x => decide (x.id ≠ u.id)) }

/-- Store interface: the transaction record keyed by txid, if any. -/
def Store.fetchTransaction (s : Store) (txid : String) : Option ProcessorTransaction :=
  keyedFind (fun t => t.txid) s.txs txid

/-- Store interface: save (insert or replace) a transaction record. -/
def Store.saveTransaction (s : Store) (t : ProcessorTransaction) : Store :=
  { s with txs := keyedUpsert (fun x => x.txid) s.txs t }

/-- keyedFind misses exactly when no entry has the key. -/
lemma keyedFind_eq_none_iff {α κ : Type} [DecidableEq κ] (key : α → κ)
    (l : List α) (k : κ) : keyedFind key l k = none ↔ ∀ y ∈ l, key y ≠ k := by
  unfold keyedFind
  rw [List.find?_eq_none]
  constructor
  · intro h y hy
    have := h y hy
    simpa using this
  · intro h y hy
    simpa using h y hy

/-- A keyedFind hit is a member carrying the key. -/
lemma keyedFind_some {α κ : Type} [DecidableEq κ] {key : α → κ}
    {l : List α} {k : κ} {y : α} (h : keyedFind key l k = some y) :
    y ∈ l ∧ key y = k := by
  unfold keyedFind at h
  refine ⟨List.mem_of_find?_eq_some h, ?_⟩
  have := List.find?_some h
  simpa using this

/-- The replacement map used by keyedUpsert leaves keys unchanged. -/
lemma keyedUpsert_map_key {α κ : Type} [DecidableEq κ] (key : α → κ) (x y : α) :
    key (if key y = key x then x else y) = key y := by
  by_cases h : key y = key x
  · simp [h]
  · simp [h]

/-- After upserting x, looking up the key of x finds exactly x. -/
lemma keyedFind_upsert_self {α κ : Type} [DecidableEq κ] (key : α → κ)
    (l : List α) (x : α) : keyedFind key (keyedUpsert key l x) (key x) = some x := by
  unfold keyedUpsert keyedFind
  by_cases h : l.any (fun y => decide (key y = key x))
  · rw [if_pos h]
    rw [List.find?_map]
    have hpred : ((fun y => decide (key y = key x)) ∘ fun y => if key y = key x then x else y)
        = fun y => decide (key y = key x) := by
      funext y
      simp only [Function.comp_apply]
      rw [keyedUpsert_map_key key x y]
    rw [hpred]
    simp only [List.any_eq_true] at h
    have hex : (l.find? (fun y => decide (key y = key x))).isSome = true :=
      List.find?_isSome.mpr h
    obtain ⟨y0, hy0⟩ := Option.isSome_iff_exists.mp hex
    rw [hy0]
    have hk0 : key y0 = key x := by simpa using List.find?_some hy0
    simp [Option.map_some', hk0]
  · rw [if_neg h]
    rw [List.find?_append]
    have hnone : l.find? (fun y => decide (key y = key x)) = none := by
      rw [List.find?_eq_none]
      intro y hy
      simp only [List.any_eq_true] at h
      push_neg at h
      simpa using h y hy
    simp [hnone]

/-- Upserting x does not change lookups at other keys. -/
lemma keyedFind_upsert_ne {α κ : Type} [DecidableEq κ] (key : α → κ)
    (l : List α) (x : α) (k : κ) (hk : k ≠ key x) :
    keyedFind key (keyedUpsert key l x) k = keyedFind key l k := by
  unfold keyedUpsert keyedFind
  by_cases h : l.any (fun y => decide (key y = key x))
  · rw [if_pos h]
    rw [List.find?_map]
    have hpred : ((fun y => decide (key y = k)) ∘ fun y => if key y = key x then x else y)
        = fun y => decide (key y = k) := by
      funext y
      simp only [Function.comp_apply]
      rw [keyedUpsert_map_key key x y]
    rw [hpred]
    cases hfind : l.find? (fun y => decide (key y = k)) with
    | none => rfl
    | some y =>
        have hky : key y = k := by simpa using List.find?_some hfind
        have : ¬ key y = key x := by
          rw [hky]
          exact hk
        simp [Option.map_some', this]
  · rw [if_neg h]
    rw [List.find?_append]
    have hxk : ¬ key x = k := fun hc => hk hc.symm
    have hlast : List.find? (fun y => decide (key y = k)) [x] = none := by
      simp [hxk]
    rw [hlast]
    cases l.find? (fun y => decide (key y = k)) <;> rfl

/-- Keys after an upsert: unchanged when the key was present, else the new
key is appended. -/
lemma keyedUpsert_keys {α κ : Type} [DecidableEq κ] (key : α → κ)
    (l : List α) (x : α) :
    (keyedUpsert key l x).map key =
      if l.any (fun y => decide (key y = key x)) then l.map key
      else l.map key ++ [key x] := by
  unfold keyedUpsert
  by_cases h : l.any (fun y => decide (key y = key x))
  · rw [if_pos h, if_pos h]
    rw [List.map_map]
    apply List.map_congr_left
    intro y _
    exact keyedUpsert_map_key key x y
  · rw [if_neg h, if_neg h]
    simp

/-- Upserting preserves key uniqueness. -/
lemma keyedUpsert_nodup {α κ : Type} [DecidableEq κ] (key : α → κ)
    (l : List α) (x : α) (h : (l.map key).Nodup) :
    ((keyedUpsert key l x).map key).Nodup := by
  rw [keyedUpsert_keys]
  by_cases hc : l.any (fun y => decide (key y = key x))
  · rw [if_pos hc]
    exact h
  · rw [if_neg hc]
    rw [List.nodup_append]
    refine ⟨h, List.nodup_singleton _, ?_⟩
    rw [List.disjoint_singleton]
    intro hmem
    simp only [List.mem_map] at hmem
    obtain ⟨y, hy, hky⟩ := hmem
    simp only [List.any_eq_true] at hc
    push_neg at hc
    have hne := hc y hy
    exact hne (decide_eq_true hky)

/-- Composite store read used by the fresh-index search (fetchAddressDataByPath
in the source): resolve the scriptPubkey of the path and then the record under
it; either miss is a thrown error, modelled as none. -/
def fetchAddressDataByPath (s : Store) (p : AddressPath) : Option IAddress :=
  match s.fetchScriptPubkeyByPath p with
  | none => none
  | some scriptPubkey => s.fetchAddressByScriptPubkey scriptPubkey

/-- The used flag the search observes at one index (false when the record is
missing; only used to state measures and invariants). -/
def usedAt (s : Store) (f : CurrencyFormat) (c : Nat) (j : Nat) : Bool :=
  match fetchAddressDataByPath s ⟨f, c, j⟩ with
  | some r => r.used
  | none => false

/-- Number of indices below a whose observed used flag is false. -/
def unusedBelow (s : Store) (f : CurrencyFormat) (c : Nat) (a : Nat) : Nat :=
  ((List.range a).filter (fun j => ¬ usedAt s f c j)).length

/-- Termination measure of the fresh-index search: backward steps consume an
unused index, forward steps shrink the distance to the partition end. -/
def ffMeasure (s : Store) (f : CurrencyFormat) (c : Nat) (nn : Nat) (a : Nat) : Nat :=
  unusedBelow s f c a * (nn + 2) + (nn - a)

lemma unusedBelow_succ (s : Store) (f : CurrencyFormat) (c : Nat) (a : Nat) :
    unusedBelow s f c (a + 1) =
      unusedBelow s f c a + (if usedAt s f c a then 0 else 1) := by
  unfold unusedBelow
  rw [List.range_succ, List.filter_append]
  simp only [List.length_append]
  by_cases h : usedAt s f c a <;> simp [h]

lemma ffMeasure_forward_lt (s : Store) (f : CurrencyFormat) (c : Nat) (nn a : Nat)
    (h1 : a < nn) (h2 : usedAt s f c a = true) :
    ffMeasure s f c nn (a + 1) < ffMeasure s f c nn a := by
  unfold ffMeasure
  rw [unusedBelow_succ, h2]
  simp only [if_pos, Nat.add_zero, if_true]
  omega

lemma ffMeasure_backward_lt (s : Store) (f : CurrencyFormat) (c : Nat) (nn a : Nat)
    (h1 : a < nn) (h2 : 1 < a) (h3 : usedAt s f c (a - 1) = false) :
    ffMeasure s f c nn (a - 2) < ffMeasure s f c nn a := by
  unfold ffMeasure
  have ha : a - 2 + 1 = a - 1 := by omega
  have hb : a - 1 + 1 = a := by omega
  have e1 := unusedBelow_succ s f c (a - 2)
  have e2 := unusedBelow_succ s f c (a - 1)
  rw [ha] at e1
  rw [hb] at e2
  rw [h3] at e2
  norm_num at e2
  have hstep : unusedBelow s f c (a - 2) + 1 ≤ unusedBelow s f c a := by
    by_cases h : usedAt s f c (a - 2)
    · rw [if_pos h] at e1
      omega
    · rw [if_neg h] at e1
      omega
  have hlt : unusedBelow s f c (a - 2) * (nn + 2) + (nn + 2)
      ≤ unusedBelow s f c a * (nn + 2) := by
    calc unusedBelow s f c (a - 2) * (nn + 2) + (nn + 2)
        = (unusedBelow s f c (a - 2) + 1) * (nn + 2) := by ring
      _ ≤ unusedBelow s f c a * (nn + 2) := Nat.mul_le_mul_right _ hstep
  omega

/-- The fresh-index search (findFreshIndex in the source).  The path is
passed as its three components, the scanned addressIndex last; the source
mutates path.addressIndex in place before each recursive call, which is the
changed final argument here.  A missing scriptPubkey or record (a thrown
error in the source) yields none. -/
def findFreshIndex (s : Store) (f : CurrencyFormat) (c : Nat) (a : Nat) : Option Nat :=
  if h0 : a ≥ s.fetchAddressCountFromPathPartition f c then some a
  else
    match hm : fetchAddressDataByPath s ⟨f, c, a⟩ with
    | none => none
    | some addressData =>
      if h1 : addressData.used = false ∧ 0 < a then
        match hp : fetchAddressDataByPath s ⟨f, c, a - 1⟩ with
        | none => none
        | some prevAddressData =>
          if hpu : prevAddressData.used then some a
          else if h2 : 1 < a then findFreshIndex s f c (a - 2)
          else some a
      else if h3 : addressData.used then findFreshIndex s f c (a + 1)
      else some a
termination_by ffMeasure s f c (s.fetchAddressCountFromPathPartition f c) a
decreasing_by
  · apply ffMeasure_backward_lt s f c _ a (by omega) h2
    unfold usedAt
    rw [hp]
    simp [hpu]
  · apply ffMeasure_forward_lt s f c _ a (by omega)
    unfold usedAt
    rw [hm]
    exact h3

/-- Reads and writes issued against the store, for instrumented variants of
the engine functions: running a trace replays the store effects, and read
operations leave the store untouched. -/
inductive ProcOp
  | fetchCountOp (f : CurrencyFormat) (c : Nat)
  | fetchSpkByPathOp (p : AddressPath)
  | fetchAddressOp (spk : String)
  | saveAddressOp (r : IAddress)
deriving DecidableEq

/-- Replay one store operation. -/
def runProcOp (s : Store) : ProcOp → Store
  | .saveAddressOp r => s.saveAddress r
  | .fetchCountOp _ _ => s
  | .fetchSpkByPathOp _ => s
  | .fetchAddressOp _ => s

/-- Whether an operation is a pure read. -/
def ProcOp.isRead : ProcOp → Bool
  | .saveAddressOp _ => false
  | _ => true

/-- The trace of store operations of one fetchAddressDataByPath call. -/
def fetchAddressDataTrace (s : Store) (p : AddressPath) : List ProcOp :=
  match s.fetchScriptPubkeyByPath p with
  | none => [.fetchSpkByPathOp p]
  | some scriptPubkey => [.fetchSpkByPathOp p, .fetchAddressOp scriptPubkey]

/-- Instrumented fresh-index search: same control flow as findFreshIndex,
also returning the trace of store operations it issues (the source re-reads
the partition count at every recursive call, hence one fetchCountOp per
call). -/
def findFreshIndexTrace (s : Store) (f : CurrencyFormat) (c : Nat) (a : Nat) :
    Option Nat × List ProcOp :=
  if h0 : a ≥ s.fetchAddressCountFromPathPartition f c then
    (some a, [.fetchCountOp f c])
  else
    match hm : fetchAddressDataByPath s ⟨f, c, a⟩ with
    | none => (none, [.fetchCountOp f c] ++ fetchAddressDataTrace s ⟨f, c, a⟩)
    | some addressData =>
      if h1 : addressData.used = false ∧ 0 < a then
        match hp : fetchAddressDataByPath s ⟨f, c, a - 1⟩ with
        | none => (none, [.fetchCountOp f c] ++ fetchAddressDataTrace s ⟨f, c, a⟩
            ++ fetchAddressDataTrace s ⟨f, c, a - 1⟩)
        | some prevAddressData =>
          if hpu : prevAddressData.used then
            (some a, [.fetchCountOp f c] ++ fetchAddressDataTrace s ⟨f, c, a⟩
              ++ fetchAddressDataTrace s ⟨f, c, a - 1⟩)
          else if h2 : 1 < a then
            let r := findFreshIndexTrace s f c (a - 2)
            (r.1, [.fetchCountOp f c] ++ fetchAddressDataTrace s ⟨f, c, a⟩
              ++ fetchAddressDataTrace s ⟨f, c, a - 1⟩ ++ r.2)
          else
            (some a, [.fetchCountOp f c] ++ fetchAddressDataTrace s ⟨f, c, a⟩
              ++ fetchAddressDataTrace s ⟨f, c, a - 1⟩)
      else if h3 : addressData.used then
        let r := findFreshIndexTrace s f c (a + 1)
        (r.1, [.fetchCountOp f c] ++ fetchAddressDataTrace s ⟨f, c, a⟩ ++ r.2)
      else (some a, [.fetchCountOp f c] ++ fetchAddressDataTrace s ⟨f, c, a⟩)
termination_by ffMeasure s f c (s.fetchAddressCountFromPathPartition f c) a
decreasing_by
  · apply ffMeasure_backward_lt s f c _ a (by omega) h2
    unfold usedAt
    rw [hp]
    simp [hpu]
  · apply ffMeasure_forward_lt s f c _ a (by omega)
    unfold usedAt
    rw [hm]
    exact h3

/-- getFreshIndex of the source: compute the anchor addressCount - gapLimit
(0 when negative); with find, run the bidirectional search from the anchor,
else return the anchor itself. -/
def getFreshIndex (s : Store) (gapLimit : Nat) (format : CurrencyFormat)
    (changeIndex : Nat) (find : Bool) : Option Nat :=
  let addressCount := s.fetchAddressCountFromPathPartition format changeIndex
  if addressCount < gapLimit then some 0
  else if find then findFreshIndex s format changeIndex (addressCount - gapLimit)
  else some (addressCount - gapLimit)

/-- Instrumented getFreshIndex, also returning its store-operation trace. -/
def getFreshIndexTrace (s : Store) (gapLimit : Nat) (format : CurrencyFormat)
    (changeIndex : Nat) (find : Bool) : Option Nat × List ProcOp :=
  let addressCount := s.fetchAddressCountFromPathPartition format changeIndex
  if addressCount < gapLimit then (some 0, [.fetchCountOp format changeIndex])
  else if find then
    let r := findFreshIndexTrace s format changeIndex (addressCount - gapLimit)
    (r.1, [.fetchCountOp format changeIndex] ++ r.2)
  else (some (addressCount - gapLimit), [.fetchCountOp format changeIndex])

lemma findFreshIndex_eq_ge (s : Store) (f : CurrencyFormat) (c a : Nat)
    (h : a ≥ s.fetchAddressCountFromPathPartition f c) :
    findFreshIndex s f c a = some a := by
  rw [findFreshIndex]
  simp [h]

lemma findFreshIndex_eq_missing (s : Store) (f : CurrencyFormat) (c a : Nat)
    (h0 : ¬ a ≥ s.fetchAddressCountFromPathPartition f c)
    (hm : fetchAddressDataByPath s ⟨f, c, a⟩ = none) :
    findFreshIndex s f c a = none := by
  rw [findFreshIndex]
  rw [dif_neg h0]
  split
  · rfl
  · next d heq => rw [hm] at heq; cases heq

lemma findFreshIndex_eq_prevMissing (s : Store) (f : CurrencyFormat) (c a : Nat)
    (d : IAddress) (h0 : ¬ a ≥ s.fetchAddressCountFromPathPartition f c)
    (hm : fetchAddressDataByPath s ⟨f, c, a⟩ = some d) (h1 : d.used = false)
    (h1b : 0 < a) (hp : fetchAddressDataByPath s ⟨f, c, a - 1⟩ = none) :
    findFreshIndex s f c a = none := by
  rw [findFreshIndex]
  rw [dif_neg h0]
  split
  · rfl
  · next d2 heq =>
    rw [hm] at heq
    cases heq
    rw [dif_pos ⟨h1, h1b⟩]
    split
    · rfl
    · next p2 heq2 => rw [hp] at heq2; cases heq2

lemma findFreshIndex_eq_prevUsed (s : Store) (f : CurrencyFormat) (c a : Nat)
    (d p : IAddress) (h0 : ¬ a ≥ s.fetchAddressCountFromPathPartition f c)
    (hm : fetchAddressDataByPath s ⟨f, c, a⟩ = some d) (h1 : d.used = false)
    (h1b : 0 < a) (hp : fetchAddressDataByPath s ⟨f, c, a - 1⟩ = some p)
    (hpu : p.used = true) :
    findFreshIndex s f c a = some a := by
  rw [findFreshIndex]
  rw [dif_neg h0]
  split
  · next heq => rw [hm] at heq; cases heq
  · next d2 heq =>
    rw [hm] at heq
    cases heq
    rw [dif_pos ⟨h1, h1b⟩]
    split
    · next heq2 => rw [hp] at heq2; cases heq2
    · next p2 heq2 =>
      rw [hp] at heq2
      cases heq2
      rw [dif_pos hpu]

lemma findFreshIndex_eq_backward (s : Store) (f : CurrencyFormat) (c a : Nat)
    (d p : IAddress) (h0 : ¬ a ≥ s.fetchAddressCountFromPathPartition f c)
    (hm : fetchAddressDataByPath s ⟨f, c, a⟩ = some d) (h1 : d.used = false)
    (h1b : 0 < a) (hp : fetchAddressDataByPath s ⟨f, c, a - 1⟩ = some p)
    (hpu : p.used = false) (h2 : 1 < a) :
    findFreshIndex s f c a = findFreshIndex s f c (a - 2) := by
  rw [findFreshIndex]
  rw [dif_neg h0]
  split
  · next heq => rw [hm] at heq; cases heq
  · next d2 heq =>
    rw [hm] at heq
    cases heq
    rw [dif_pos ⟨h1, h1b⟩]
    split
    · next heq2 => rw [hp] at heq2; cases heq2
    · next p2 heq2 =>
      rw [hp] at heq2
      cases heq2
      rw [dif_neg (by simp [hpu])]
      rw [dif_pos h2]

lemma findFreshIndex_eq_stopOne (s : Store) (f : CurrencyFormat) (c a : Nat)
    (d p : IAddress) (h0 : ¬ a ≥ s.fetchAddressCountFromPathPartition f c)
    (hm : fetchAddressDataByPath s ⟨f, c, a⟩ = some d) (h1 : d.used = false)
    (h1b : 0 < a) (hp : fetchAddressDataByPath s ⟨f, c, a - 1⟩ = some p)
    (hpu : p.used = false) (h2 : ¬ 1 < a) :
    findFreshIndex s f c a = some a := by
  rw [findFreshIndex]
  rw [dif_neg h0]
  split
  · next heq => rw [hm] at heq; cases heq
  · next d2 heq =>
    rw [hm] at heq
    cases heq
    rw [dif_pos ⟨h1, h1b⟩]
    split
    · next heq2 => rw [hp] at heq2; cases heq2
    · next p2 heq2 =>
      rw [hp] at heq2
      cases heq2
      rw [dif_neg (by simp [hpu])]
      rw [dif_neg h2]

lemma findFreshIndex_eq_forward (s : Store) (f : CurrencyFormat) (c a : Nat)
    (d : IAddress) (h0 : ¬ a ≥ s.fetchAddressCountFromPathPartition f c)
    (hm : fetchAddressDataByPath s ⟨f, c, a⟩ = some d)
    (h1 : ¬ (d.used = false ∧ 0 < a)) (h3 : d.used = true) :
    findFreshIndex s f c a = findFreshIndex s f c (a + 1) := by
  rw [findFreshIndex]
  rw [dif_neg h0]
  split
  · next heq => rw [hm] at heq; cases heq
  · next d2 heq =>
    rw [hm] at heq
    cases heq
    rw [dif_neg h1]
    rw [dif_pos h3]

lemma findFreshIndex_eq_zeroFresh (s : Store) (f : CurrencyFormat) (c a : Nat)
    (d : IAddress) (h0 : ¬ a ≥ s.fetchAddressCountFromPathPartition f c)
    (hm : fetchAddressDataByPath s ⟨f, c, a⟩ = some d)
    (h1 : ¬ (d.used = false ∧ 0 < a)) (h3 : ¬ d.used = true) :
    findFreshIndex s f c a = some a := by
  rw [findFreshIndex]
  rw [dif_neg h0]
  split
  · next heq => rw [hm] at heq; cases heq
  · next d2 heq =>
    rw [hm] at heq
    cases heq
    rw [dif_neg h1]
    rw [dif_neg h3]

lemma findFreshIndexTrace_eq_ge (s : Store) (f : CurrencyFormat) (c a : Nat)
    (h : a ≥ s.fetchAddressCountFromPathPartition f c) :
    findFreshIndexTrace s f c a = (some a, [.fetchCountOp f c]) := by
  rw [findFreshIndexTrace]
  simp [h]

lemma findFreshIndexTrace_eq_missing (s : Store) (f : CurrencyFormat) (c a : Nat)
    (h0 : ¬ a ≥ s.fetchAddressCountFromPathPartition f c)
    (hm : fetchAddressDataByPath s ⟨f, c, a⟩ = none) :
    findFreshIndexTrace s f c a =
      (none, [.fetchCountOp f c] ++ fetchAddressDataTrace s ⟨f, c, a⟩) := by
  rw [findFreshIndexTrace]
  rw [dif_neg h0]
  split
  · rfl
  · next d2 heq => rw [hm] at heq; cases heq

lemma findFreshIndexTrace_eq_prevMissing (s : Store) (f : CurrencyFormat) (c a : Nat)
    (d : IAddress) (h0 : ¬ a ≥ s.fetchAddressCountFromPathPartition f c)
    (hm : fetchAddressDataByPath s ⟨f, c, a⟩ = some d) (h1 : d.used = false)
    (h1b : 0 < a) (hp : fetchAddressDataByPath s ⟨f, c, a - 1⟩ = none) :
    findFreshIndexTrace s f c a =
      (none, [.fetchCountOp f c] ++ fetchAddressDataTrace s ⟨f, c, a⟩
        ++ fetchAddressDataTrace s ⟨f, c, a - 1⟩) := by
  rw [findFreshIndexTrace]
  rw [dif_neg h0]
  split
  · next heq => rw [hm] at heq; cases heq
  · next d2 heq =>
    rw [hm] at heq
    cases heq
    rw [dif_pos ⟨h1, h1b⟩]
    split
    · rfl
    · next p2 heq2 => rw [hp] at heq2; cases heq2

lemma findFreshIndexTrace_eq_prevUsed (s : Store) (f : CurrencyFormat) (c a : Nat)
    (d p : IAddress) (h0 : ¬ a ≥ s.fetchAddressCountFromPathPartition f c)
    (hm : fetchAddressDataByPath s ⟨f, c, a⟩ = some d) (h1 : d.used = false)
    (h1b : 0 < a) (hp : fetchAddressDataByPath s ⟨f, c, a - 1⟩ = some p)
    (hpu : p.used = true) :
    findFreshIndexTrace s f c a =
      (some a, [.fetchCountOp f c] ++ fetchAddressDataTrace s ⟨f, c, a⟩
        ++ fetchAddressDataTrace s ⟨f, c, a - 1⟩) := by
  rw [findFreshIndexTrace]
  rw [dif_neg h0]
  split
  · next heq => rw [hm] at heq; cases heq
  · next d2 heq =>
    rw [hm] at heq
    cases heq
    rw [dif_pos ⟨h1, h1b⟩]
    split
    · next heq2 => rw [hp] at heq2; cases heq2
    · next p2 heq2 =>
      rw [hp] at heq2
      cases heq2
      rw [dif_pos hpu]

lemma findFreshIndexTrace_eq_backward (s : Store) (f : CurrencyFormat) (c a : Nat)
    (d p : IAddress) (h0 : ¬ a ≥ s.fetchAddressCountFromPathPartition f c)
    (hm : fetchAddressDataByPath s ⟨f, c, a⟩ = some d) (h1 : d.used = false)
    (h1b : 0 < a) (hp : fetchAddressDataByPath s ⟨f, c, a - 1⟩ = some p)
    (hpu : p.used = false) (h2 : 1 < a) :
    findFreshIndexTrace s f c a =
      ((findFreshIndexTrace s f c (a - 2)).1,
        [.fetchCountOp f c] ++ fetchAddressDataTrace s ⟨f, c, a⟩
        ++ fetchAddressDataTrace s ⟨f, c, a - 1⟩
        ++ (findFreshIndexTrace s f c (a - 2)).2) := by
  rw [findFreshIndexTrace]
  rw [dif_neg h0]
  split
  · next heq => rw [hm] at heq; cases heq
  · next d2 heq =>
    rw [hm] at heq
    cases heq
    rw [dif_pos ⟨h1, h1b⟩]
    split
    · next heq2 => rw [hp] at heq2; cases heq2
    · next p2 heq2 =>
      rw [hp] at heq2
      cases heq2
      rw [dif_neg (by simp [hpu])]
      rw [dif_pos h2]

lemma findFreshIndexTrace_eq_stopOne (s : Store) (f : CurrencyFormat) (c a : Nat)
    (d p : IAddress) (h0 : ¬ a ≥ s.fetchAddressCountFromPathPartition f c)
    (hm : fetchAddressDataByPath s ⟨f, c, a⟩ = some d) (h1 : d.used = false)
    (h1b : 0 < a) (hp : fetchAddressDataByPath s ⟨f, c, a - 1⟩ = some p)
    (hpu : p.used = false) (h2 : ¬ 1 < a) :
    findFreshIndexTrace s f c a =
      (some a, [.fetchCountOp f c] ++ fetchAddressDataTrace s ⟨f, c, a⟩
        ++ fetchAddressDataTrace s ⟨f, c, a - 1⟩) := by
  rw [findFreshIndexTrace]
  rw [dif_neg h0]
  split
  · next heq => rw [hm] at heq; cases heq
  · next d2 heq =>
    rw [hm] at heq
    cases heq
    rw [dif_pos ⟨h1, h1b⟩]
    split
    · next heq2 => rw [hp] at heq2; cases heq2
    · next p2 heq2 =>
      rw [hp] at heq2
      cases heq2
      rw [dif_neg (by simp [hpu])]
      rw [dif_neg h2]

lemma findFreshIndexTrace_eq_forward (s : Store) (f : CurrencyFormat) (c a : Nat)
    (d : IAddress) (h0 : ¬ a ≥ s.fetchAddressCountFromPathPartition f c)
    (hm : fetchAddressDataByPath s ⟨f, c, a⟩ = some d)
    (h1 : ¬ (d.used = false ∧ 0 < a)) (h3 : d.used = true) :
    findFreshIndexTrace s f c a =
      ((findFreshIndexTrace s f c (a + 1)).1,
        [.fetchCountOp f c] ++ fetchAddressDataTrace s ⟨f, c, a⟩
        ++ (findFreshIndexTrace s f c (a + 1)).2) := by
  rw [findFreshIndexTrace]
  rw [dif_neg h0]
  split
  · next heq => rw [hm] at heq; cases heq
  · next d2 heq =>
    rw [hm] at heq
    cases heq
    rw [dif_neg h1]
    rw [dif_pos h3]

lemma findFreshIndexTrace_eq_zeroFresh (s : Store) (f : CurrencyFormat) (c a : Nat)
    (d : IAddress) (h0 : ¬ a ≥ s.fetchAddressCountFromPathPartition f c)
    (hm : fetchAddressDataByPath s ⟨f, c, a⟩ = some d)
    (h1 : ¬ (d.used = false ∧ 0 < a)) (h3 : ¬ d.used = true) :
    findFreshIndexTrace s f c a =
      (some a, [.fetchCountOp f c] ++ fetchAddressDataTrace s ⟨f, c, a⟩) := by
  rw [findFreshIndexTrace]
  rw [dif_neg h0]
  split
  · next heq => rw [hm] at heq; cases heq
  · next d2 heq =>
    rw [hm] at heq
    cases heq
    rw [dif_neg h1]
    rw [dif_neg h3]

/-- Whether an operation is an address-record probe (the first store read of a
fetchAddressDataByPath call). -/
def ProcOp.isDataProbe : ProcOp → Bool
  | .fetchSpkByPathOp _ => true
  | _ => false

lemma fetchAddressDataTrace_reads (s : Store) (p : AddressPath) :
    ∀ op ∈ fetchAddressDataTrace s p, op.isRead = true := by
  unfold fetchAddressDataTrace
  cases s.fetchScriptPubkeyByPath p with
  | none => intro op hop; simp at hop; subst hop; rfl
  | some spk =>
      intro op hop
      simp at hop
      rcases hop with h | h <;> subst h <;> rfl

lemma fetchAddressDataTrace_probe (s : Store) (p : AddressPath) :
    (fetchAddressDataTrace s p).countP (fun op => op.isDataProbe) = 1 := by
  unfold fetchAddressDataTrace
  cases s.fetchScriptPubkeyByPath p <;> simp [List.countP_cons, ProcOp.isDataProbe]

lemma unusedBelow_forward_eq (s : Store) (f : CurrencyFormat) (c a : Nat)
    (h : usedAt s f c a = true) :
    unusedBelow s f c (a + 1) = unusedBelow s f c a := by
  rw [unusedBelow_succ, h]
  simp

lemma unusedBelow_backward_le (s : Store) (f : CurrencyFormat) (c a : Nat)
    (h2 : 1 < a) (h3 : usedAt s f c (a - 1) = false) :
    unusedBelow s f c (a - 2) + 1 ≤ unusedBelow s f c a := by
  have ha : a - 2 + 1 = a - 1 := by omega
  have hb : a - 1 + 1 = a := by omega
  have e1 := unusedBelow_succ s f c (a - 2)
  have e2 := unusedBelow_succ s f c (a - 1)
  rw [ha] at e1
  rw [hb] at e2
  rw [h3] at e2
  norm_num at e2
  by_cases h : usedAt s f c (a - 2)
  · rw [if_pos h] at e1
    omega
  · rw [if_neg h] at e1
    omega

lemma unusedBelow_le (s : Store) (f : CurrencyFormat) (c a : Nat) :
    unusedBelow s f c a ≤ a := by
  unfold unusedBelow
  calc ((List.range a).filter (fun j => ¬ usedAt s f c j)).length
      ≤ (List.range a).length := List.length_filter_le _ _
    _ = a := List.length_range a

/-- The instrumented search computes the same index as findFreshIndex. -/
lemma findFreshIndexTrace_fst (s : Store) (f : CurrencyFormat) (c : Nat) (a : Nat) :
    (findFreshIndexTrace s f c a).1 = findFreshIndex s f c a := by
  induction a using findFreshIndexTrace.induct s f c with
  | case1 x hx =>
      rw [findFreshIndexTrace_eq_ge s f c x hx, findFreshIndex_eq_ge s f c x hx]
  | case2 x h0 hm =>
      rw [findFreshIndexTrace_eq_missing s f c x h0 hm,
        findFreshIndex_eq_missing s f c x h0 hm]
  | case3 x h0 d hm h1 hp =>
      rw [findFreshIndexTrace_eq_prevMissing s f c x d h0 hm h1.1 h1.2 hp,
        findFreshIndex_eq_prevMissing s f c x d h0 hm h1.1 h1.2 hp]
  | case4 x h0 d hm h1 p hp hpu =>
      rw [findFreshIndexTrace_eq_prevUsed s f c x d p h0 hm h1.1 h1.2 hp hpu,
        findFreshIndex_eq_prevUsed s f c x d p h0 hm h1.1 h1.2 hp hpu]
  | case5 x h0 d hm h1 p hp hpu h2 ih =>
      have hpu' : p.used = false := by
        cases hu : p.used
        · rfl
        · exact absurd hu hpu
      rw [findFreshIndexTrace_eq_backward s f c x d p h0 hm h1.1 h1.2 hp hpu' h2,
        findFreshIndex_eq_backward s f c x d p h0 hm h1.1 h1.2 hp hpu' h2]
      exact ih
  | case6 x h0 d hm h1 p hp hpu h2 =>
      have hpu' : p.used = false := by
        cases hu : p.used
        · rfl
        · exact absurd hu hpu
      rw [findFreshIndexTrace_eq_stopOne s f c x d p h0 hm h1.1 h1.2 hp hpu' h2,
        findFreshIndex_eq_stopOne s f c x d p h0 hm h1.1 h1.2 hp hpu' h2]
  | case7 x h0 d hm h1 h3 ih =>
      rw [findFreshIndexTrace_eq_forward s f c x d h0 hm h1 h3,
        findFreshIndex_eq_forward s f c x d h0 hm h1 h3]
      exact ih
  | case8 x h0 d hm h1 h3 =>
      rw [findFreshIndexTrace_eq_zeroFresh s f c x d h0 hm h1 h3,
        findFreshIndex_eq_zeroFresh s f c x d h0 hm h1 h3]

/-- Every operation the search issues is a pure read. -/
lemma findFreshIndexTrace_reads (s : Store) (f : CurrencyFormat) (c : Nat) (a : Nat) :
    ∀ op ∈ (findFreshIndexTrace s f c a).2, op.isRead = true := by
  induction a using findFreshIndexTrace.induct s f c with
  | case1 x hx =>
      rw [findFreshIndexTrace_eq_ge s f c x hx]
      intro op hop
      simp at hop
      subst hop
      rfl
  | case2 x h0 hm =>
      rw [findFreshIndexTrace_eq_missing s f c x h0 hm]
      intro op hop
      simp only [List.mem_append, List.mem_singleton] at hop
      rcases hop with h | h
      · subst h; rfl
      · exact fetchAddressDataTrace_reads s _ op h
  | case3 x h0 d hm h1 hp =>
      rw [findFreshIndexTrace_eq_prevMissing s f c x d h0 hm h1.1 h1.2 hp]
      intro op hop
      simp only [List.append_assoc, List.mem_append, List.mem_singleton] at hop
      rcases hop with h | h | h
      · subst h; rfl
      · exact fetchAddressDataTrace_reads s _ op h
      · exact fetchAddressDataTrace_reads s _ op h
  | case4 x h0 d hm h1 p hp hpu =>
      rw [findFreshIndexTrace_eq_prevUsed s f c x d p h0 hm h1.1 h1.2 hp hpu]
      intro op hop
      simp only [List.append_assoc, List.mem_append, List.mem_singleton] at hop
      rcases hop with h | h | h
      · subst h; rfl
      · exact fetchAddressDataTrace_reads s _ op h
      · exact fetchAddressDataTrace_reads s _ op h
  | case5 x h0 d hm h1 p hp hpu h2 ih =>
      have hpu' : p.used = false := by
        cases hu : p.used
        · rfl
        · exact absurd hu hpu
      rw [findFreshIndexTrace_eq_backward s f c x d p h0 hm h1.1 h1.2 hp hpu' h2]
      intro op hop
      simp only [List.append_assoc, List.mem_append, List.mem_singleton] at hop
      rcases hop with h | h | h | h
      · subst h; rfl
      · exact fetchAddressDataTrace_reads s _ op h
      · exact fetchAddressDataTrace_reads s _ op h
      · exact ih op h
  | case6 x h0 d hm h1 p hp hpu h2 =>
      have hpu' : p.used = false := by
        cases hu : p.used
        · rfl
        · exact absurd hu hpu
      rw [findFreshIndexTrace_eq_stopOne s f c x d p h0 hm h1.1 h1.2 hp hpu' h2]
      intro op hop
      simp only [List.append_assoc, List.mem_append, List.mem_singleton] at hop
      rcases hop with h | h | h
      · subst h; rfl
      · exact fetchAddressDataTrace_reads s _ op h
      · exact fetchAddressDataTrace_reads s _ op h
  | case7 x h0 d hm h1 h3 ih =>
      rw [findFreshIndexTrace_eq_forward s f c x d h0 hm h1 h3]
      intro op hop
      simp only [List.append_assoc, List.mem_append, List.mem_singleton] at hop
      rcases hop with h | h | h
      · subst h; rfl
      · exact fetchAddressDataTrace_reads s _ op h
      · exact ih op h
  | case8 x h0 d hm h1 h3 =>
      rw [findFreshIndexTrace_eq_zeroFresh s f c x d h0 hm h1 h3]
      intro op hop
      simp only [List.mem_append, List.mem_singleton] at hop
      rcases hop with h | h
      · subst h; rfl
      · exact fetchAddressDataTrace_reads s _ op h

lemma countP_probe_fetchCountOp (f : CurrencyFormat) (c : Nat) :
    List.countP (fun op => op.isDataProbe) [ProcOp.fetchCountOp f c] = 0 := rfl

/-- Probe count of the search: at most one probe per forward step plus four
per unused index below the anchor, plus two. -/
lemma findFreshIndexTrace_probes_le (s : Store) (f : CurrencyFormat) (c : Nat)
    (a : Nat) :
    ((findFreshIndexTrace s f c a).2.countP (fun op => op.isDataProbe))
      ≤ (s.fetchAddressCountFromPathPartition f c - a)
        + 4 * unusedBelow s f c a + 2 := by
  induction a using findFreshIndexTrace.induct s f c with
  | case1 x hx =>
      rw [findFreshIndexTrace_eq_ge s f c x hx]
      rw [countP_probe_fetchCountOp]
      omega
  | case2 x h0 hm =>
      rw [findFreshIndexTrace_eq_missing s f c x h0 hm]
      simp only [List.append_assoc, List.countP_append, fetchAddressDataTrace_probe,
        countP_probe_fetchCountOp]
      omega
  | case3 x h0 d hm h1 hp =>
      rw [findFreshIndexTrace_eq_prevMissing s f c x d h0 hm h1.1 h1.2 hp]
      simp only [List.append_assoc, List.countP_append, fetchAddressDataTrace_probe,
        countP_probe_fetchCountOp]
      omega
  | case4 x h0 d hm h1 p hp hpu =>
      rw [findFreshIndexTrace_eq_prevUsed s f c x d p h0 hm h1.1 h1.2 hp hpu]
      simp only [List.append_assoc, List.countP_append, fetchAddressDataTrace_probe,
        countP_probe_fetchCountOp]
      omega
  | case5 x h0 d hm h1 p hp hpu h2 ih =>
      have hpu' : p.used = false := by
        cases hu : p.used
        · rfl
        · exact absurd hu hpu
      rw [findFreshIndexTrace_eq_backward s f c x d p h0 hm h1.1 h1.2 hp hpu' h2]
      have hu1 : usedAt s f c (x - 1) = false := by
        unfold usedAt
        rw [hp]
        exact hpu'
      have hback := unusedBelow_backward_le s f c x h2 hu1
      simp only [List.append_assoc, List.countP_append, fetchAddressDataTrace_probe,
        countP_probe_fetchCountOp] at ih ⊢
      omega
  | case6 x h0 d hm h1 p hp hpu h2 =>
      have hpu' : p.used = false := by
        cases hu : p.used
        · rfl
        · exact absurd hu hpu
      rw [findFreshIndexTrace_eq_stopOne s f c x d p h0 hm h1.1 h1.2 hp hpu' h2]
      simp only [List.append_assoc, List.countP_append, fetchAddressDataTrace_probe,
        countP_probe_fetchCountOp]
      omega
  | case7 x h0 d hm h1 h3 ih =>
      rw [findFreshIndexTrace_eq_forward s f c x d h0 hm h1 h3]
      have hu : usedAt s f c x = true := by
        unfold usedAt
        rw [hm]
        exact h3
      have hfwd := unusedBelow_forward_eq s f c x hu
      have hlt : x < s.fetchAddressCountFromPathPartition f c := by omega
      simp only [List.append_assoc, List.countP_append, fetchAddressDataTrace_probe,
        countP_probe_fetchCountOp] at ih ⊢
      omega
  | case8 x h0 d hm h1 h3 =>
      rw [findFreshIndexTrace_eq_zeroFresh s f c x d h0 hm h1 h3]
      simp only [List.append_assoc, List.countP_append, fetchAddressDataTrace_probe,
        countP_probe_fetchCountOp]
      omega

/-- Under a contiguous branch, the search never throws. -/
lemma findFreshIndex_isSome (s : Store) (f : CurrencyFormat) (c : Nat)
    (hcont : ∀ j, j < s.fetchAddressCountFromPathPartition f c →
      (fetchAddressDataByPath s ⟨f, c, j⟩).isSome) (a : Nat) :
    (findFreshIndex s f c a).isSome := by
  induction a using findFreshIndex.induct s f c with
  | case1 x hx => rw [findFreshIndex_eq_ge s f c x hx]; rfl
  | case2 x h0 hm =>
      have := hcont x (by omega)
      rw [hm] at this
      cases this
  | case3 x h0 d hm h1 hp =>
      have := hcont (x - 1) (by omega)
      rw [hp] at this
      cases this
  | case4 x h0 d hm h1 p hp hpu =>
      rw [findFreshIndex_eq_prevUsed s f c x d p h0 hm h1.1 h1.2 hp hpu]
      rfl
  | case5 x h0 d hm h1 p hp hpu h2 ih =>
      have hpu' : p.used = false := by
        cases hu : p.used
        · rfl
        · exact absurd hu hpu
      rw [findFreshIndex_eq_backward s f c x d p h0 hm h1.1 h1.2 hp hpu' h2]
      exact ih
  | case6 x h0 d hm h1 p hp hpu h2 =>
      have hpu' : p.used = false := by
        cases hu : p.used
        · rfl
        · exact absurd hu hpu
      rw [findFreshIndex_eq_stopOne s f c x d p h0 hm h1.1 h1.2 hp hpu' h2]
      rfl
  | case7 x h0 d hm h1 h3 ih =>
      rw [findFreshIndex_eq_forward s f c x d h0 hm h1 h3]
      exact ih
  | case8 x h0 d hm h1 h3 =>
      rw [findFreshIndex_eq_zeroFresh s f c x d h0 hm h1 h3]
      rfl

/-- What the search actually returns, started anywhere below the partition
end: an index r at most the address count, unused when r is a stored index,
and sitting right above a used index whenever 2 <= r; at r = 0 and r = 1 the
scan can stop without inspecting lower indices. -/
lemma findFreshIndex_char (s : Store) (f : CurrencyFormat) (c : Nat)
    (hcont : ∀ j, j < s.fetchAddressCountFromPathPartition f c →
      (fetchAddressDataByPath s ⟨f, c, j⟩).isSome) (a : Nat) :
    a < s.fetchAddressCountFromPathPartition f c →
    ∃ r, findFreshIndex s f c a = some r ∧
      r ≤ s.fetchAddressCountFromPathPartition f c ∧
      (r < s.fetchAddressCountFromPathPartition f c → usedAt s f c r = false) ∧
      (2 ≤ r → usedAt s f c (r - 1) = true) := by
  induction a using findFreshIndex.induct s f c with
  | case1 x hx => intro hlt; omega
  | case2 x h0 hm =>
      intro _
      have := hcont x (by omega)
      rw [hm] at this
      cases this
  | case3 x h0 d hm h1 hp =>
      intro _
      have := hcont (x - 1) (by omega)
      rw [hp] at this
      cases this
  | case4 x h0 d hm h1 p hp hpu =>
      intro hlt
      refine ⟨x, findFreshIndex_eq_prevUsed s f c x d p h0 hm h1.1 h1.2 hp hpu, by omega, ?_, ?_⟩
      · intro _
        unfold usedAt
        rw [hm]
        exact h1.1
      · intro _
        unfold usedAt
        rw [hp]
        exact hpu
  | case5 x h0 d hm h1 p hp hpu h2 ih =>
      intro hlt
      have hpu' : p.used = false := by
        cases hu : p.used
        · rfl
        · exact absurd hu hpu
      rw [findFreshIndex_eq_backward s f c x d p h0 hm h1.1 h1.2 hp hpu' h2]
      exact ih (by omega)
  | case6 x h0 d hm h1 p hp hpu h2 =>
      intro hlt
      have hpu' : p.used = false := by
        cases hu : p.used
        · rfl
        · exact absurd hu hpu
      refine ⟨x, findFreshIndex_eq_stopOne s f c x d p h0 hm h1.1 h1.2 hp hpu' h2,
        by omega, ?_, ?_⟩
      · intro _
        unfold usedAt
        rw [hm]
        exact h1.1
      · intro hx2
        omega
  | case7 x h0 d hm h1 h3 ih =>
      intro hlt
      rw [findFreshIndex_eq_forward s f c x d h0 hm h1 h3]
      by_cases hnext : x + 1 < s.fetchAddressCountFromPathPartition f c
      · exact ih hnext
      · have heq : x + 1 = s.fetchAddressCountFromPathPartition f c := by omega
        refine ⟨x + 1, findFreshIndex_eq_ge s f c (x + 1) (by omega), by omega, ?_, ?_⟩
        · intro hx
          omega
        · intro _
          have : x + 1 - 1 = x := by omega
          rw [this]
          unfold usedAt
          rw [hm]
          exact h3
  | case8 x h0 d hm h1 h3 =>
      intro hlt
      have hx0 : x = 0 := by
        by_contra hne
        have hd : d.used = false := by
          cases hu : d.used
          · rfl
          · exact absurd hu h3
        exact h1 ⟨hd, by omega⟩
      subst hx0
      refine ⟨0, findFreshIndex_eq_zeroFresh s f c 0 d h0 hm h1 h3, by omega, ?_, ?_⟩
      · intro _
        unfold usedAt
        rw [hm]
        show d.used = false
        cases hu : d.used
        · rfl
        · exact absurd hu h3
      · intro h2
        omega

lemma getFreshIndexTrace_fst (s : Store) (gapLimit : Nat) (f : CurrencyFormat)
    (c : Nat) (find : Bool) :
    (getFreshIndexTrace s gapLimit f c find).1 = getFreshIndex s gapLimit f c find := by
  unfold getFreshIndexTrace getFreshIndex
  by_cases h : s.fetchAddressCountFromPathPartition f c < gapLimit
  · simp [h]
  · cases find
    · simp [h]
    · simp [h, findFreshIndexTrace_fst]

lemma getFreshIndexTrace_reads (s : Store) (gapLimit : Nat) (f : CurrencyFormat)
    (c : Nat) (find : Bool) :
    ∀ op ∈ (getFreshIndexTrace s gapLimit f c find).2, op.isRead = true := by
  unfold getFreshIndexTrace
  by_cases h : s.fetchAddressCountFromPathPartition f c < gapLimit
  · intro op hop
    simp only [if_pos h] at hop
    simp at hop
    subst hop
    rfl
  · cases find
    · intro op hop
      simp only [if_neg h] at hop
      simp at hop
      subst hop
      rfl
    · intro op hop
      simp only [if_neg h] at hop
      simp at hop
      rcases hop with h1 | h1
      · subst h1; rfl
      · exact findFreshIndexTrace_reads s f c _ op h1

lemma foldl_runProcOp_reads (s : Store) (ops : List ProcOp)
    (h : ∀ op ∈ ops, op.isRead = true) : ops.foldl runProcOp s = s := by
  induction ops with
  | nil => rfl
  | cons op rest ih =>
      have hop : runProcOp s op = s := by
        cases op with
        | saveAddressOp r =>
            have := h _ (List.mem_cons_self _ _)
            simp [ProcOp.isRead] at this
        | fetchCountOp f c => rfl
        | fetchSpkByPathOp p => rfl
        | fetchAddressOp spk => rfl
      rw [List.foldl_cons, hop]
      exact ih (fun op hop => h op (List.mem_cons_of_mem _ hop))

/-- Written from the claim wording (refinement comparison, not from the
code): index j lies in the trailing run of unused indices of the branch when
every stored index from j on is unused. -/
def inTrailingUnusedRun (s : Store) (f : CurrencyFormat) (c : Nat) (j : Nat) : Prop :=
  ∀ k, k < s.fetchAddressCountFromPathPartition f c → j ≤ k → usedAt s f c k = false

/-- Written from the claim wording: index i is unused and every lower index
is either used or part of the trailing run of unused indices. -/
def specFreshProperty (s : Store) (f : CurrencyFormat) (c : Nat) (i : Nat) : Prop :=
  usedAt s f c i = false ∧
  ∀ j, j < i → (usedAt s f c j = true ∨ inTrailingUnusedRun s f c j)

/-- Written from the claim wording: r is the smallest index with the claimed
fresh property. -/
def specSmallestFresh (s : Store) (f : CurrencyFormat) (c : Nat) (r : Nat) : Prop :=
  specFreshProperty s f c r ∧ ∀ i, i < r → ¬ specFreshProperty s f c i

instance instDecInTrailing (s : Store) (f : CurrencyFormat) (c j : Nat) :
    Decidable (inTrailingUnusedRun s f c j) :=
  decidable_of_iff
    (∀ k, k < s.fetchAddressCountFromPathPartition f c → j ≤ k → usedAt s f c k = false)
    Iff.rfl

instance instDecSpecFresh (s : Store) (f : CurrencyFormat) (c i : Nat) :
    Decidable (specFreshProperty s f c i) :=
  decidable_of_iff
    (usedAt s f c i = false ∧
      ∀ j, j < i → (usedAt s f c j = true ∨ inTrailingUnusedRun s f c j))
    Iff.rfl

instance instDecSpecSmallest (s : Store) (f : CurrencyFormat) (c r : Nat) :
    Decidable (specSmallestFresh s f c r) :=
  decidable_of_iff
    (specFreshProperty s f c r ∧ ∀ i, i < r → ¬ specFreshProperty s f c i)
    Iff.rfl

/-- One unused address record of the counterexample branch. -/
def cexAddr (i : Nat) (spk : String) : IAddress :=
  { scriptPubkey := spk, path := some ⟨CurrencyFormat.bip84, 0, i⟩, used := false,
    balance := 0, networkQueryVal := 0, lastQuery := 0, lastTouched := 0 }

/-- A store whose bip84 receive branch holds three contiguous unused
records. -/
def cexStore : Store :=
  { addrs := [cexAddr 0 "s0", cexAddr 1 "s1", cexAddr 2 "s2"],
    pathPartitions := [((CurrencyFormat.bip84, 0), ["s0", "s1", "s2"])],
    utxos := [], txs := [] }

/-- C2 counterexample: on a branch holding contiguous unused records at
indices 0, 1, 2 with gapLimit 2, getFreshIndex (find = true) returns 1, yet 1
is not the smallest index with the claimed property (index 0 already
satisfies it): the backward scan stops at index 1 without inspecting 0. -/
theorem getFreshIndex_not_smallest :
    getFreshIndex cexStore 2 CurrencyFormat.bip84 0 true = some 1 ∧
    ¬ specSmallestFresh cexStore CurrencyFormat.bip84 0 1 := by
  constructor
  · have hc : cexStore.fetchAddressCountFromPathPartition CurrencyFormat.bip84 0 = 3 := by
      decide
    have hf : findFreshIndex cexStore CurrencyFormat.bip84 0 1 = some 1 := by
      rw [findFreshIndex]
      decide
    unfold getFreshIndex
    rw [hc]
    norm_num
    exact hf
  · decide

/-- C2 (amended): for a branch holding address records at the contiguous
indices 0..N-1, getFreshIndex with find = true always succeeds and its
result r falls into three regimes.  With N < gapLimit it is 0 without any
scan, even when record 0 is used; with gapLimit = 0 it is N without any
scan, even when record N-1 is unused; with 1 <= gapLimit <= N it is an
index r <= N that is unused whenever r < N and whose predecessor r - 1 is
used whenever 2 <= r, and at r = 0 and r = 1 the scan can stop without
inspecting lower indices.  In no regime need r be the smallest index with
the claimed fresh property. -/
theorem getFreshIndex_fresh_slot (s : Store) (gapLimit : Nat) (f : CurrencyFormat)
    (c : Nat)
    (hcont : ∀ j, j < s.fetchAddressCountFromPathPartition f c →
      (fetchAddressDataByPath s ⟨f, c, j⟩).isSome) :
    ∃ r, getFreshIndex s gapLimit f c true = some r ∧
      (s.fetchAddressCountFromPathPartition f c < gapLimit → r = 0) ∧
      (gapLimit = 0 → r = s.fetchAddressCountFromPathPartition f c) ∧
      (1 ≤ gapLimit → gapLimit ≤ s.fetchAddressCountFromPathPartition f c →
        (r ≤ s.fetchAddressCountFromPathPartition f c ∧
         (r < s.fetchAddressCountFromPathPartition f c → usedAt s f c r = false) ∧
         (2 ≤ r → usedAt s f c (r - 1) = true))) := by
  by_cases hlt : s.fetchAddressCountFromPathPartition f c < gapLimit
  · refine ⟨0, ?_, fun _ => rfl, fun hz => by omega, fun _ hgc => absurd hgc (by omega)⟩
    unfold getFreshIndex
    rw [if_pos hlt]
  · by_cases h0 : gapLimit = 0
    · subst h0
      refine ⟨s.fetchAddressCountFromPathPartition f c, ?_,
        fun hc => absurd hc (by omega), fun _ => rfl,
        fun h1 _ => absurd h1 (by omega)⟩
      unfold getFreshIndex
      rw [if_neg hlt, if_pos rfl, Nat.sub_zero]
      exact findFreshIndex_eq_ge s f c _ (Nat.le_refl _)
    · have hanchor : s.fetchAddressCountFromPathPartition f c - gapLimit
          < s.fetchAddressCountFromPathPartition f c := by omega
      obtain ⟨r, hr, h1, h2, h3⟩ := findFreshIndex_char s f c hcont
        (s.fetchAddressCountFromPathPartition f c - gapLimit) hanchor
      refine ⟨r, ?_, fun hc => absurd hc hlt, fun hz => absurd hz h0,
        fun _ _ => ⟨h1, h2, h3⟩⟩
      unfold getFreshIndex
      rw [if_neg (by omega)]
      rw [if_pos rfl]
      exact hr

/-- C2 witness: the amended statement applied to the three-unused-records
branch with gapLimit 2. -/
theorem getFreshIndex_fresh_slot_witness :
    ∃ r, getFreshIndex cexStore 2 CurrencyFormat.bip84 0 true = some r ∧
      (cexStore.fetchAddressCountFromPathPartition CurrencyFormat.bip84 0 < 2 →
        r = 0) ∧
      ((2 : Nat) = 0 →
        r = cexStore.fetchAddressCountFromPathPartition CurrencyFormat.bip84 0) ∧
      (1 ≤ 2 → 2 ≤ cexStore.fetchAddressCountFromPathPartition CurrencyFormat.bip84 0 →
        (r ≤ cexStore.fetchAddressCountFromPathPartition CurrencyFormat.bip84 0 ∧
         (r < cexStore.fetchAddressCountFromPathPartition CurrencyFormat.bip84 0 →
           usedAt cexStore CurrencyFormat.bip84 0 r = false) ∧
         (2 ≤ r → usedAt cexStore CurrencyFormat.bip84 0 (r - 1) = true))) :=
  getFreshIndex_fresh_slot cexStore 2 CurrencyFormat.bip84 0 (by decide)

/-- C7: getFreshIndex is idempotent.  The first call issues only read
operations, so replaying its store-operation trace leaves the store
unchanged, and a second call on the resulting store returns the same value;
the instrumented run computes exactly getFreshIndex. -/
theorem getFreshIndex_idempotent (s : Store) (gapLimit : Nat) (f : CurrencyFormat)
    (c : Nat) :
    (getFreshIndexTrace s gapLimit f c true).2.foldl runProcOp s = s ∧
    (getFreshIndexTrace ((getFreshIndexTrace s gapLimit f c true).2.foldl runProcOp s)
        gapLimit f c true).1 = (getFreshIndexTrace s gapLimit f c true).1 ∧
    (getFreshIndexTrace s gapLimit f c true).1 = getFreshIndex s gapLimit f c true := by
  have hreads := getFreshIndexTrace_reads s gapLimit f c true
  have hfold := foldl_runProcOp_reads s _ hreads
  exact ⟨hfold, by rw [hfold], getFreshIndexTrace_fst s gapLimit f c true⟩

/-- C8: the fresh-index search terminates (it is a total function of the
store) and issues at most 5 N + 2 address-record probes for a branch of N
records, a linear bound; the instrumented run computes exactly
findFreshIndex. -/
theorem findFreshIndex_probe_bound (s : Store) (f : CurrencyFormat) (c a : Nat) :
    (findFreshIndexTrace s f c a).1 = findFreshIndex s f c a ∧
    (findFreshIndexTrace s f c a).2.countP (fun op => op.isDataProbe)
      ≤ 5 * s.fetchAddressCountFromPathPartition f c + 2 := by
  refine ⟨findFreshIndexTrace_fst s f c a, ?_⟩
  by_cases h : a ≥ s.fetchAddressCountFromPathPartition f c
  · rw [findFreshIndexTrace_eq_ge s f c a h]
    rw [countP_probe_fetchCountOp]
    omega
  · have hb := findFreshIndexTrace_probes_le s f c a
    have hu := unusedBelow_le s f c a
    omega

/-- Return shape of the key manager's getScriptPubkey. -/
structure GetScriptPubkeyReturn where
  scriptPubkey : String
  redeemScript : Option String
deriving DecidableEq

/-- Return shape of the key manager's scriptPubkeyToAddress. -/
structure AddressReturn where
  address : String
  legacyAddress : String
deriving DecidableEq

/-- Modelled from the spec: the pure key-manager wallet tools the engine
consumes (makeUtxoWalletTools is not among the given source files):
path-to-scriptPubkey derivation, address-to-scriptPubkey and
scriptPubkey-to-address encodings. -/
structure WalletToolsM where
  getScriptPubkey : AddressPath → GetScriptPubkeyReturn
  addressToScriptPubkey : String → String
  scriptPubkeyToAddress : String → CurrencyFormat → AddressReturn

/-- The scriptPubkey the wallet tools derive for a path. -/
def deriveSpk (wt : WalletToolsM) (p : AddressPath) : String :=
  (wt.getScriptPubkey p).scriptPubkey

/-- Account summary of a Blockbook fetchAddress call without details. -/
structure AccountDetails where
  balance : Int
  unconfirmedBalance : Int
  txs : Nat
  unconfirmedTxs : Nat
deriving DecidableEq

/-- An input of a raw indexer transaction (vout may be absent for some
inputs, a documented backend quirk). -/
structure VinT where
  txid : String
  vout : Option Nat
  addresses : List String
  value : Int
deriving DecidableEq

/-- An output of a raw indexer transaction. -/
structure VoutT where
  n : Nat
  hex : Option String
  addresses : List String
  value : Int
deriving DecidableEq

/-- A raw transaction as the indexer returns it. -/
structure ITransaction where
  txid : String
  hex : String
  blockHeight : Nat
  blockTime : Int
  fees : Int
  vin : List VinT
  vout : List VoutT
deriving DecidableEq

/-- A UTXO as the indexer returns it. -/
structure AccountUtxo where
  txid : String
  vout : Nat
  value : Int
  height : Option Nat
deriving DecidableEq

/-- Modelled from the spec: the Blockbook indexer interface the engine
consumes, as a record of pure query functions.  fetchAddress is modelled
as two functions: without details it returns the account summary; with
details txs it returns one page of transactions, with a fixed per-address
page count. -/
structure BlockBookM where
  fetchAddressInfo : String → AccountDetails
  fetchAddressTxPage : String → Nat → List ITransaction
  totalPages : String → Nat
  fetchAddressUtxos : String → List AccountUtxo
  fetchTransaction : String → ITransaction

/-- The engine configuration fields the embedded functions read. -/
structure EngineCurrencyInfo where
  gapLimit : Nat
  currencyCode : String

/-- The engine's external collaborators, bundled as the source's args
records bundle them.  validSpkFromAddress models the keymanager's
validScriptPubkeyFromAddress with the coin and network fixed by the
configuration. -/
structure EngineEnv where
  currencyInfo : EngineCurrencyInfo
  walletTools : WalletToolsM
  blockBook : BlockBookM
  validSpkFromAddress : String → String

/-- saveNewOrUpdateAddressPathIfNeeded of the source: resolve the
scriptPubkey (given directly, or derived from the path; neither given is a
thrown error, modelled as none); a missing record is saved fresh (returning
true), a record without a path is patched with the given path, and a record
with a path is left alone. -/
def saveNewOrUpdateAddressPathIfNeeded (wt : WalletToolsM) (s : Store)
    (pathArg : Option AddressPath) (spkArg : Option String) :
    Option (Store × Bool) :=
  match spkArg.orElse (fun _ => pathArg.map (fun p => (wt.getScriptPubkey p).scriptPubkey)) with
  | none => none
  | some scriptPubkey =>
    match s.fetchAddressByScriptPubkey scriptPubkey with
    | none =>
        some (s.saveAddress
          { scriptPubkey := scriptPubkey, path := pathArg, networkQueryVal := 0,
            lastQuery := 0, lastTouched := 0, used := false, balance := 0 }, true)
    | some addressData =>
        if addressData.path = none then
          some (s.saveAddress { addressData with path := pathArg }, false)
        else some (s, false)

/-- The address dispatched for a newly created path in setLookAhead: the
scriptPubkey just saved for the path (a missing one is the source's non-null
assertion failing) rendered as a textual address. -/
def dispatchAddress (env : EngineEnv) (s : Store) (path : AddressPath) :
    Option String :=
  match s.fetchScriptPubkeyByPath path with
  | none => none
  | some scriptPubkey =>
      some (env.walletTools.scriptPubkeyToAddress scriptPubkey path.format).address

/-- The per-branch loop of setLookAhead: while i < freshIndex + gapLimit,
save the address at index i (dispatching it for processing when new and
processNewAddresses is set; the source queues the processAddress job behind
the held mutex, so the dispatched addresses are collected, not run), then
re-read freshIndex and continue with i + 1.  The loop of the source has no
intrinsic bound, so it is run on fuel; none means the fuel ran out or a
store error was thrown. -/
def lookAheadLoop (env : EngineEnv) (f : CurrencyFormat) (branch : Nat)
    (processNewAddresses : Bool) :
    Nat → Store → Nat → Nat → List String → Option (Store × List String)
  | 0, _, _, _, _ => none
  | fuel + 1, s, freshIndex, i, dispatched =>
    if i < freshIndex + env.currencyInfo.gapLimit then
      match saveNewOrUpdateAddressPathIfNeeded env.walletTools s
          (some ⟨f, branch, i⟩) none with
      | none => none
      | some (s1, isNew) =>
        match (if isNew ∧ processNewAddresses then
            (dispatchAddress env s1 ⟨f, branch, i⟩).map (fun a => dispatched ++ [a])
          else some dispatched) with
        | none => none
        | some dispatched1 =>
          match getFreshIndex s1 env.currencyInfo.gapLimit f branch true with
          | none => none
          | some freshIndex1 =>
              lookAheadLoop env f branch processNewAddresses fuel s1 freshIndex1
                (i + 1) dispatched1
    else some (s, dispatched)

/-- One branch pass of setLookAhead: compute freshIndex and the branch's
address count, then run the extension loop from i = addressCount. -/
def setLookAheadBranch (env : EngineEnv) (f : CurrencyFormat)
    (processNewAddresses : Bool) (fuel : Nat) (s : Store) (branch : Nat) :
    Option (Store × List String) :=
  match getFreshIndex s env.currencyInfo.gapLimit f branch true with
  | none => none
  | some freshIndex =>
      lookAheadLoop env f branch processNewAddresses fuel s freshIndex
        (s.fetchAddressCountFromPathPartition f branch) []

/-- The branch iteration of setLookAhead. -/
def setLookAheadBranches (env : EngineEnv) (f : CurrencyFormat)
    (processNewAddresses : Bool) (fuel : Nat) :
    List Nat → Store → List String → Option (Store × List String)
  | [], s, dispatched => some (s, dispatched)
  | branch :: rest, s, dispatched =>
    match setLookAheadBranch env f processNewAddresses fuel s branch with
    | none => none
    | some (s1, dispatched1) =>
        setLookAheadBranches env f processNewAddresses fuel rest s1
          (dispatched ++ dispatched1)

/-- setLookAhead of the source: under the engine mutex, extend every
supported branch of the format to freshIndex + gapLimit addresses,
re-reading freshIndex after each save.  Dispatched addresses are the
processAddress jobs the source queues for after the mutex is released. -/
def setLookAhead (env : EngineEnv) (fuel : Nat) (s : Store) (format : CurrencyFormat)
    (processNewAddresses : Bool) : Option (Store × List String) :=
  setLookAheadBranches env format processNewAddresses fuel
    (getFormatSupportedBranches format) s []

lemma keyedUpsert_mem {α κ : Type} [DecidableEq κ] {key : α → κ}
    {l : List α} {x y : α} (hy : y ∈ keyedUpsert key l x) :
    y = x ∨ (y ∈ l ∧ key y ≠ key x) := by
  unfold keyedUpsert at hy
  by_cases h : l.any (fun z => decide (key z = key x))
  · rw [if_pos h] at hy
    simp only [List.mem_map] at hy
    obtain ⟨z, hz, hzy⟩ := hy
    by_cases hk : key z = key x
    · left
      rw [if_pos hk] at hzy
      exact hzy.symm
    · right
      rw [if_neg hk] at hzy
      subst hzy
      exact ⟨hz, hk⟩
  · rw [if_neg h] at hy
    rcases List.mem_append.mp hy with h1 | h1
    · right
      refine ⟨h1, ?_⟩
      simp only [List.any_eq_true] at h
      push_neg at h
      have := h y h1
      simpa using this
    · left
      simpa using h1

lemma getPartition_setPartition_self (s : Store) (f : CurrencyFormat) (c : Nat)
    (l : List String) : getPartition (setPartition s f c l) f c = l := by
  unfold getPartition setPartition
  have := keyedFind_upsert_self (fun e : (CurrencyFormat × Nat) × List String => e.1)
    s.pathPartitions ((f, c), l)
  simp only at this
  rw [this]

lemma getPartition_setPartition_ne (s : Store) (f : CurrencyFormat) (c : Nat)
    (l : List String) (f' : CurrencyFormat) (c' : Nat)
    (hne : (f', c') ≠ (f, c)) :
    getPartition (setPartition s f c l) f' c' = getPartition s f' c' := by
  unfold getPartition setPartition
  have := keyedFind_upsert_ne (fun e : (CurrencyFormat × Nat) × List String => e.1)
    s.pathPartitions ((f, c), l) (f', c') hne
  simp only at this
  rw [this]

lemma getPartition_addrs (s : Store) (l : List IAddress) (f : CurrencyFormat)
    (c : Nat) : getPartition { s with addrs := l } f c = getPartition s f c := rfl

lemma saveAddress_addrs (s : Store) (r : IAddress) :
    (s.saveAddress r).addrs = keyedUpsert (fun x => x.scriptPubkey) s.addrs r := by
  unfold Store.saveAddress
  cases r.path <;> rfl

lemma saveAddress_getPartition_none (s : Store) (r : IAddress) (h : r.path = none)
    (f : CurrencyFormat) (c : Nat) :
    getPartition (s.saveAddress r) f c = getPartition s f c := by
  unfold Store.saveAddress
  rw [h]
  rfl

lemma saveAddress_getPartition_self (s : Store) (r : IAddress) (p : AddressPath)
    (h : r.path = some p) :
    getPartition (s.saveAddress r) p.format p.changeIndex =
      writeAt (getPartition s p.format p.changeIndex) p.addressIndex r.scriptPubkey := by
  unfold Store.saveAddress
  rw [h]
  rw [getPartition_setPartition_self]
  rfl

lemma saveAddress_getPartition_ne (s : Store) (r : IAddress) (p : AddressPath)
    (h : r.path = some p) (f' : CurrencyFormat) (c' : Nat)
    (hne : (f', c') ≠ (p.format, p.changeIndex)) :
    getPartition (s.saveAddress r) f' c' = getPartition s f' c' := by
  unfold Store.saveAddress
  rw [h]
  rw [getPartition_setPartition_ne _ _ _ _ _ _ hne]
  rfl

lemma fetchAddress_saveAddress_self (s : Store) (r : IAddress) :
    (s.saveAddress r).fetchAddressByScriptPubkey r.scriptPubkey = some r := by
  unfold Store.fetchAddressByScriptPubkey
  rw [saveAddress_addrs]
  exact keyedFind_upsert_self (fun x => x.scriptPubkey) s.addrs r

lemma fetchAddress_saveAddress_ne (s : Store) (r : IAddress) (spk : String)
    (h : spk ≠ r.scriptPubkey) :
    (s.saveAddress r).fetchAddressByScriptPubkey spk
      = s.fetchAddressByScriptPubkey spk := by
  unfold Store.fetchAddressByScriptPubkey
  rw [saveAddress_addrs]
  exact keyedFind_upsert_ne (fun x => x.scriptPubkey) s.addrs r spk h

/-- The store well-formedness invariant behind the lookahead proofs: address
keys are unique, every path-partition entry holds the scriptPubkey the
wallet tools derive for that path and has a record in the store, and every
record carrying a path is indexed in the partition at its path. -/
structure StoreWf (wt : WalletToolsM) (s : Store) : Prop where
  keysNodup : (s.addrs.map (fun r => r.scriptPubkey)).Nodup
  partSpk : ∀ (f : CurrencyFormat) (c i : Nat) (spk : String),
    (getPartition s f c)[i]? = some spk → spk = deriveSpk wt ⟨f, c, i⟩
  partRec : ∀ (f : CurrencyFormat) (c i : Nat) (spk : String),
    (getPartition s f c)[i]? = some spk →
    (s.fetchAddressByScriptPubkey spk).isSome
  recPath : ∀ r ∈ s.addrs, ∀ (p : AddressPath), r.path = some p →
    (getPartition s p.format p.changeIndex)[p.addressIndex]? = some r.scriptPubkey

lemma StoreWf.contiguous {wt : WalletToolsM} {s : Store} (hwf : StoreWf wt s)
    (f : CurrencyFormat) (c : Nat) :
    ∀ j, j < s.fetchAddressCountFromPathPartition f c →
      (fetchAddressDataByPath s ⟨f, c, j⟩).isSome := by
  intro j hj
  have hsp : (getPartition s f c)[j]? = some (getPartition s f c)[j] :=
    List.getElem?_eq_getElem hj
  unfold fetchAddressDataByPath Store.fetchScriptPubkeyByPath
  simp only
  rw [hsp]
  exact hwf.partRec f c j _ hsp

lemma emptyStore_wf (wt : WalletToolsM) : StoreWf wt emptyStore := by
  constructor
  · simp [emptyStore]
  · intro f c i spk h
    simp [emptyStore, getPartition, keyedFind] at h
  · intro f c i spk h
    simp [emptyStore, getPartition, keyedFind] at h
  · intro r hr
    simp [emptyStore] at hr

lemma writeAt_append (l : List String) (v : String) : writeAt l l.length v = l ++ [v] := by
  unfold writeAt
  simp

lemma getElem?_some_lt {α : Type} {l : List α} {n : Nat} {x : α}
    (h : l[n]? = some x) : n < l.length := by
  by_contra hn
  rw [List.getElem?_eq_none (Nat.le_of_not_lt hn)] at h
  cases h

lemma saveAddress_step (wt : WalletToolsM) (s : Store) (f : CurrencyFormat) (b : Nat)
    (hinj : Function.Injective (deriveSpk wt)) (hwf : StoreWf wt s) (r : IAddress)
    (hkey : r.scriptPubkey = deriveSpk wt ⟨f, b, s.fetchAddressCountFromPathPartition f b⟩)
    (hpath : r.path = some ⟨f, b, s.fetchAddressCountFromPathPartition f b⟩) :
    StoreWf wt (s.saveAddress r) ∧
    getPartition (s.saveAddress r) f b = getPartition s f b ++ [r.scriptPubkey] ∧
    (∀ f' c', ¬ (f' = f ∧ c' = b) →
      getPartition (s.saveAddress r) f' c' = getPartition s f' c') ∧
    (∀ (f' : CurrencyFormat) (c' j : Nat), ¬ (f' = f ∧ c' = b) →
      fetchAddressDataByPath (s.saveAddress r) ⟨f', c', j⟩
        = fetchAddressDataByPath s ⟨f', c', j⟩) := by
  have hlen : s.fetchAddressCountFromPathPartition f b = (getPartition s f b).length := rfl
  have hpart : getPartition (s.saveAddress r) f b = getPartition s f b ++ [r.scriptPubkey] := by
    have h1 := saveAddress_getPartition_self s r _ hpath
    simp only at h1
    rw [h1, hlen, writeAt_append]
  have hpartne : ∀ f' c', ¬ (f' = f ∧ c' = b) →
      getPartition (s.saveAddress r) f' c' = getPartition s f' c' := by
    intro f' c' hne
    refine saveAddress_getPartition_ne s r _ hpath f' c' ?_
    simp only
    intro hc
    apply hne
    exact ⟨congrArg Prod.fst hc, congrArg Prod.snd hc⟩
  have hfetchne : ∀ spk2, spk2 ≠ r.scriptPubkey →
      (s.saveAddress r).fetchAddressByScriptPubkey spk2
        = s.fetchAddressByScriptPubkey spk2 :=
    fun spk2 h2 => fetchAddress_saveAddress_ne s r spk2 h2
  have hspk_ne : ∀ (f' : CurrencyFormat) (c' j : Nat), ¬ (f' = f ∧ c' = b) →
      ∀ spk', (getPartition s f' c')[j]? = some spk' → spk' ≠ r.scriptPubkey := by
    intro f' c' j hne spk' hsp hcontra
    have h1 : spk' = deriveSpk wt ⟨f', c', j⟩ := hwf.partSpk f' c' j spk' hsp
    rw [hkey] at hcontra
    rw [h1] at hcontra
    have := hinj hcontra
    cases this
    exact hne ⟨rfl, rfl⟩
  have hdata : ∀ (f' : CurrencyFormat) (c' j : Nat), ¬ (f' = f ∧ c' = b) →
      fetchAddressDataByPath (s.saveAddress r) ⟨f', c', j⟩
        = fetchAddressDataByPath s ⟨f', c', j⟩ := by
    intro f' c' j hne
    unfold fetchAddressDataByPath Store.fetchScriptPubkeyByPath
    simp only
    rw [hpartne f' c' hne]
    cases hsp : (getPartition s f' c')[j]? with
    | none => rfl
    | some spk' => exact hfetchne spk' (hspk_ne f' c' j hne spk' hsp)
  refine ⟨?_, hpart, hpartne, hdata⟩
  constructor
  · rw [saveAddress_addrs]
    exact keyedUpsert_nodup _ _ _ hwf.keysNodup
  · intro f' c' j spk' hsp
    by_cases hfc : f' = f ∧ c' = b
    · obtain ⟨rfl, rfl⟩ := hfc
      rw [hpart, List.getElem?_append] at hsp
      by_cases hj : j < (getPartition s f' c').length
      · rw [if_pos hj] at hsp
        exact hwf.partSpk f' c' j spk' hsp
      · rw [if_neg hj] at hsp
        have hlt1 : j - (getPartition s f' c').length < 1 := by
          have := getElem?_some_lt hsp
          simpa using this
        have hje : j = (getPartition s f' c').length := by omega
        have hj0 : j - (getPartition s f' c').length = 0 := by omega
        rw [hj0] at hsp
        simp only [List.getElem?_cons_zero, Option.some.injEq] at hsp
        rw [← hsp, hkey, hlen, ← hje]
    · rw [hpartne f' c' hfc] at hsp
      exact hwf.partSpk f' c' j spk' hsp
  · intro f' c' j spk' hsp
    by_cases hspk : spk' = r.scriptPubkey
    · subst hspk
      rw [fetchAddress_saveAddress_self]
      rfl
    · rw [hfetchne spk' hspk]
      by_cases hfc : f' = f ∧ c' = b
      · obtain ⟨rfl, rfl⟩ := hfc
        rw [hpart, List.getElem?_append] at hsp
        by_cases hj : j < (getPartition s f' c').length
        · rw [if_pos hj] at hsp
          exact hwf.partRec f' c' j spk' hsp
        · rw [if_neg hj] at hsp
          have hlt1 : j - (getPartition s f' c').length < 1 := by
            have := getElem?_some_lt hsp
            simpa using this
          have hj0 : j - (getPartition s f' c').length = 0 := by omega
          rw [hj0] at hsp
          simp only [List.getElem?_cons_zero, Option.some.injEq] at hsp
          exact absurd hsp.symm hspk
      · rw [hpartne f' c' hfc] at hsp
        exact hwf.partRec f' c' j spk' hsp
  · intro r' hr' p' hp'
    rw [saveAddress_addrs] at hr'
    rcases keyedUpsert_mem hr' with heq | ⟨hmem, hkne⟩
    · subst heq
      rw [hpath] at hp'
      cases hp'
      simp only
      rw [hpart, hlen]
      exact List.getElem?_concat_length _ _
    · have hold := hwf.recPath r' hmem p' hp'
      by_cases hfc : p'.format = f ∧ p'.changeIndex = b
      · obtain ⟨hf1, hc1⟩ := hfc
        rw [hf1, hc1] at hold ⊢
        rw [hpart]
        have hjlt := getElem?_some_lt hold
        rw [List.getElem?_append_left hjlt]
        exact hold
      · rw [hpartne p'.format p'.changeIndex hfc]
        exact hold

lemma saveNewOrUpdate_at_count (wt : WalletToolsM) (s : Store) (f : CurrencyFormat)
    (b : Nat) (hinj : Function.Injective (deriveSpk wt)) (hwf : StoreWf wt s)
    (s1 : Store) (isNew : Bool)
    (hsave : saveNewOrUpdateAddressPathIfNeeded wt s
      (some ⟨f, b, s.fetchAddressCountFromPathPartition f b⟩) none = some (s1, isNew)) :
    StoreWf wt s1 ∧
    s1.fetchAddressCountFromPathPartition f b
      = s.fetchAddressCountFromPathPartition f b + 1 ∧
    (∀ f' c', ¬ (f' = f ∧ c' = b) → getPartition s1 f' c' = getPartition s f' c') ∧
    (∀ (f' : CurrencyFormat) (c' j : Nat), ¬ (f' = f ∧ c' = b) →
      fetchAddressDataByPath s1 ⟨f', c', j⟩ = fetchAddressDataByPath s ⟨f', c', j⟩) := by
  have hsave2 : (match s.fetchAddressByScriptPubkey
      (deriveSpk wt ⟨f, b, s.fetchAddressCountFromPathPartition f b⟩) with
    | none =>
        some (s.saveAddress
          { scriptPubkey := deriveSpk wt ⟨f, b, s.fetchAddressCountFromPathPartition f b⟩,
            path := some ⟨f, b, s.fetchAddressCountFromPathPartition f b⟩,
            networkQueryVal := 0, lastQuery := 0, lastTouched := 0, used := false,
            balance := 0 }, true)
    | some addressData =>
        if addressData.path = none then
          some (s.saveAddress { addressData with
            path := some ⟨f, b, s.fetchAddressCountFromPathPartition f b⟩ }, false)
        else some (s, false)) = some (s1, isNew) := hsave
  have hcount : ∀ r : IAddress,
      getPartition (s.saveAddress r) f b = getPartition s f b ++ [r.scriptPubkey] →
      (s.saveAddress r).fetchAddressCountFromPathPartition f b
        = s.fetchAddressCountFromPathPartition f b + 1 := by
    intro r hp
    show (getPartition (s.saveAddress r) f b).length = (getPartition s f b).length + 1
    rw [hp]
    simp
  cases hfetch : s.fetchAddressByScriptPubkey
      (deriveSpk wt ⟨f, b, s.fetchAddressCountFromPathPartition f b⟩) with
  | none =>
      rw [hfetch] at hsave2
      have hsave3 : some (s.saveAddress
          { scriptPubkey := deriveSpk wt ⟨f, b, s.fetchAddressCountFromPathPartition f b⟩,
            path := some ⟨f, b, s.fetchAddressCountFromPathPartition f b⟩,
            networkQueryVal := 0, lastQuery := 0, lastTouched := 0, used := false,
            balance := 0 }, true) = some (s1, isNew) := hsave2
      simp only [Option.some.injEq, Prod.mk.injEq] at hsave3
      obtain ⟨hs1, _⟩ := hsave3
      subst hs1
      obtain ⟨hwf1, hp, hpne, hd⟩ := saveAddress_step wt s f b hinj hwf
        { scriptPubkey := deriveSpk wt ⟨f, b, s.fetchAddressCountFromPathPartition f b⟩,
          path := some ⟨f, b, s.fetchAddressCountFromPathPartition f b⟩,
          networkQueryVal := 0, lastQuery := 0, lastTouched := 0, used := false,
          balance := 0 } rfl rfl
      exact ⟨hwf1, hcount _ hp, hpne, hd⟩
  | some data =>
      rw [hfetch] at hsave2
      have hsave3 : (if data.path = none then
          some (s.saveAddress { data with
            path := some ⟨f, b, s.fetchAddressCountFromPathPartition f b⟩ }, false)
        else some (s, false)) = some (s1, isNew) := hsave2
      cases hq : data.path with
      | none =>
          rw [hq] at hsave3
          simp only [reduceIte, Option.some.injEq, Prod.mk.injEq] at hsave3
          obtain ⟨hs1, -⟩ := hsave3
          subst hs1
          have hkey : data.scriptPubkey
              = deriveSpk wt ⟨f, b, s.fetchAddressCountFromPathPartition f b⟩ :=
            (keyedFind_some hfetch).2
          obtain ⟨hwf1, hp, hpne, hd⟩ := saveAddress_step wt s f b hinj hwf
            { data with path := some ⟨f, b, s.fetchAddressCountFromPathPartition f b⟩ }
            hkey rfl
          exact ⟨hwf1, hcount _ hp, hpne, hd⟩
      | some q =>
          exfalso
          clear hsave3
          have hmem : data ∈ s.addrs := (keyedFind_some hfetch).1
          have hkey : data.scriptPubkey
              = deriveSpk wt ⟨f, b, s.fetchAddressCountFromPathPartition f b⟩ :=
            (keyedFind_some hfetch).2
          have hidx := hwf.recPath data hmem q hq
          have hspk := hwf.partSpk q.format q.changeIndex q.addressIndex _ hidx
          have hqeq : (⟨q.format, q.changeIndex, q.addressIndex⟩ : AddressPath) = q := rfl
          rw [hqeq] at hspk
          have hqpath : q = ⟨f, b, s.fetchAddressCountFromPathPartition f b⟩ := by
            apply hinj
            rw [← hspk, ← hkey]
          rw [hqpath] at hidx
          have hlt := getElem?_some_lt hidx
          simp only at hlt
          have hce : s.fetchAddressCountFromPathPartition f b = (getPartition s f b).length := rfl
          rw [hce] at hlt
          exact absurd hlt (lt_irrefl _)

lemma findFreshIndex_congr (s1 s2 : Store) (f : CurrencyFormat) (c : Nat)
    (hcount : s1.fetchAddressCountFromPathPartition f c
      = s2.fetchAddressCountFromPathPartition f c)
    (hdata : ∀ j, fetchAddressDataByPath s1 ⟨f, c, j⟩
      = fetchAddressDataByPath s2 ⟨f, c, j⟩) :
    ∀ a, findFreshIndex s1 f c a = findFreshIndex s2 f c a := by
  intro a
  induction a using findFreshIndex.induct s1 f c with
  | case1 x hx =>
      rw [findFreshIndex_eq_ge s1 f c x hx,
        findFreshIndex_eq_ge s2 f c x (by omega)]
  | case2 x h0 hm =>
      rw [findFreshIndex_eq_missing s1 f c x h0 hm,
        findFreshIndex_eq_missing s2 f c x (by omega) (by rw [← hdata]; exact hm)]
  | case3 x h0 d hm h1 hp =>
      rw [findFreshIndex_eq_prevMissing s1 f c x d h0 hm h1.1 h1.2 hp,
        findFreshIndex_eq_prevMissing s2 f c x d (by omega)
          (by rw [← hdata]; exact hm) h1.1 h1.2 (by rw [← hdata]; exact hp)]
  | case4 x h0 d hm h1 p hp hpu =>
      rw [findFreshIndex_eq_prevUsed s1 f c x d p h0 hm h1.1 h1.2 hp hpu,
        findFreshIndex_eq_prevUsed s2 f c x d p (by omega)
          (by rw [← hdata]; exact hm) h1.1 h1.2 (by rw [← hdata]; exact hp) hpu]
  | case5 x h0 d hm h1 p hp hpu h2 ih =>
      have hpu' : p.used = false := by
        cases hu : p.used
        · rfl
        · exact absurd hu hpu
      rw [findFreshIndex_eq_backward s1 f c x d p h0 hm h1.1 h1.2 hp hpu' h2,
        findFreshIndex_eq_backward s2 f c x d p (by omega)
          (by rw [← hdata]; exact hm) h1.1 h1.2 (by rw [← hdata]; exact hp) hpu' h2]
      exact ih
  | case6 x h0 d hm h1 p hp hpu h2 =>
      have hpu' : p.used = false := by
        cases hu : p.used
        · rfl
        · exact absurd hu hpu
      rw [findFreshIndex_eq_stopOne s1 f c x d p h0 hm h1.1 h1.2 hp hpu' h2,
        findFreshIndex_eq_stopOne s2 f c x d p (by omega)
          (by rw [← hdata]; exact hm) h1.1 h1.2 (by rw [← hdata]; exact hp) hpu' h2]
  | case7 x h0 d hm h1 h3 ih =>
      rw [findFreshIndex_eq_forward s1 f c x d h0 hm h1 h3,
        findFreshIndex_eq_forward s2 f c x d (by omega)
          (by rw [← hdata]; exact hm) h1 h3]
      exact ih
  | case8 x h0 d hm h1 h3 =>
      rw [findFreshIndex_eq_zeroFresh s1 f c x d h0 hm h1 h3,
        findFreshIndex_eq_zeroFresh s2 f c x d (by omega)
          (by rw [← hdata]; exact hm) h1 h3]

lemma getFreshIndex_congr (s1 s2 : Store) (gapLimit : Nat) (f : CurrencyFormat)
    (c : Nat)
    (hcount : s1.fetchAddressCountFromPathPartition f c
      = s2.fetchAddressCountFromPathPartition f c)
    (hdata : ∀ j, fetchAddressDataByPath s1 ⟨f, c, j⟩
      = fetchAddressDataByPath s2 ⟨f, c, j⟩) :
    getFreshIndex s1 gapLimit f c true = getFreshIndex s2 gapLimit f c true := by
  unfold getFreshIndex
  rw [hcount]
  by_cases h : s2.fetchAddressCountFromPathPartition f c < gapLimit
  · simp [h]
  · simp only [if_neg h, if_pos rfl]
    exact findFreshIndex_congr s1 s2 f c hcount hdata _

lemma lookAheadLoop_post (env : EngineEnv) (f : CurrencyFormat) (b : Nat)
    (pn : Bool) (hinj : Function.Injective (deriveSpk env.walletTools)) :
    ∀ (fuel : Nat) (s : Store) (freshIndex i : Nat) (dispatched : List String)
      (s' : Store) (d' : List String),
      StoreWf env.walletTools s →
      getFreshIndex s env.currencyInfo.gapLimit f b true = some freshIndex →
      i = s.fetchAddressCountFromPathPartition f b →
      lookAheadLoop env f b pn fuel s freshIndex i dispatched = some (s', d') →
      StoreWf env.walletTools s' ∧
      (∃ fr, getFreshIndex s' env.currencyInfo.gapLimit f b true = some fr ∧
        fr + env.currencyInfo.gapLimit ≤ s'.fetchAddressCountFromPathPartition f b) ∧
      (∀ f' c', ¬ (f' = f ∧ c' = b) →
        getPartition s' f' c' = getPartition s f' c') ∧
      (∀ (f' : CurrencyFormat) (c' j : Nat), ¬ (f' = f ∧ c' = b) →
        fetchAddressDataByPath s' ⟨f', c', j⟩ = fetchAddressDataByPath s ⟨f', c', j⟩) := by
  intro fuel
  induction fuel with
  | zero =>
      intro s freshIndex i dispatched s' d' hwf hfresh hi hrun
      simp [lookAheadLoop] at hrun
  | succ fuel ih =>
      intro s freshIndex i dispatched s' d' hwf hfresh hi hrun
      rw [lookAheadLoop] at hrun
      by_cases hcond : i < freshIndex + env.currencyInfo.gapLimit
      · rw [if_pos hcond] at hrun
        cases hsave : saveNewOrUpdateAddressPathIfNeeded env.walletTools s
            (some ⟨f, b, i⟩) none with
        | none => rw [hsave] at hrun; cases hrun
        | some pr =>
            obtain ⟨s1, isNew⟩ := pr
            rw [hsave] at hrun
            have hsave1 : saveNewOrUpdateAddressPathIfNeeded env.walletTools s
                (some ⟨f, b, s.fetchAddressCountFromPathPartition f b⟩) none
                  = some (s1, isNew) := by
              rw [← hi]
              exact hsave
            obtain ⟨hwf1, hcount1, hpne1, hd1⟩ :=
              saveNewOrUpdate_at_count env.walletTools s f b hinj hwf s1 isNew hsave1
            have hrun2 : (match (if isNew ∧ pn then
                  (dispatchAddress env s1 ⟨f, b, i⟩).map (fun a => dispatched ++ [a])
                else some dispatched) with
              | none => none
              | some dispatched1 =>
                match getFreshIndex s1 env.currencyInfo.gapLimit f b true with
                | none => none
                | some freshIndex1 =>
                    lookAheadLoop env f b pn fuel s1 freshIndex1 (i + 1) dispatched1)
                = some (s', d') := hrun
            clear hrun
            cases hdisp : (if isNew ∧ pn then
                (dispatchAddress env s1 ⟨f, b, i⟩).map (fun a => dispatched ++ [a])
              else some dispatched) with
            | none => rw [hdisp] at hrun2; cases hrun2
            | some dispatched1 =>
                rw [hdisp] at hrun2
                cases hfr : getFreshIndex s1 env.currencyInfo.gapLimit f b true with
                | none => rw [hfr] at hrun2; cases hrun2
                | some freshIndex1 =>
                    rw [hfr] at hrun2
                    have hi1 : i + 1 = s1.fetchAddressCountFromPathPartition f b := by
                      omega
                    obtain ⟨hwf', hpost, hpne', hd'2⟩ :=
                      ih s1 freshIndex1 (i + 1) dispatched1 s' d' hwf1 hfr hi1 hrun2
                    refine ⟨hwf', hpost, ?_, ?_⟩
                    · intro f' c' hne
                      rw [hpne' f' c' hne, hpne1 f' c' hne]
                    · intro f' c' j hne
                      rw [hd'2 f' c' j hne, hd1 f' c' j hne]
      · rw [if_neg hcond] at hrun
        simp only [Option.some.injEq, Prod.mk.injEq] at hrun
        obtain ⟨hs, -⟩ := hrun
        subst hs
        refine ⟨hwf, ⟨freshIndex, hfresh, by omega⟩, ?_, ?_⟩
        · intro f' c' _
          rfl
        · intro f' c' j _
          rfl

lemma setLookAheadBranch_post (env : EngineEnv) (f : CurrencyFormat) (pn : Bool)
    (fuel : Nat) (hinj : Function.Injective (deriveSpk env.walletTools))
    (s : Store) (b : Nat) (s1 : Store) (d1 : List String)
    (hwf : StoreWf env.walletTools s)
    (hrun : setLookAheadBranch env f pn fuel s b = some (s1, d1)) :
    StoreWf env.walletTools s1 ∧
    (∃ fr, getFreshIndex s1 env.currencyInfo.gapLimit f b true = some fr ∧
      fr + env.currencyInfo.gapLimit ≤ s1.fetchAddressCountFromPathPartition f b) ∧
    (∀ f' c', ¬ (f' = f ∧ c' = b) →
      getPartition s1 f' c' = getPartition s f' c') ∧
    (∀ (f' : CurrencyFormat) (c' j : Nat), ¬ (f' = f ∧ c' = b) →
      fetchAddressDataByPath s1 ⟨f', c', j⟩ = fetchAddressDataByPath s ⟨f', c', j⟩) := by
  unfold setLookAheadBranch at hrun
  cases hfr : getFreshIndex s env.currencyInfo.gapLimit f b true with
  | none => rw [hfr] at hrun; cases hrun
  | some freshIndex =>
      rw [hfr] at hrun
      exact lookAheadLoop_post env f b pn hinj fuel s freshIndex
        (s.fetchAddressCountFromPathPartition f b) [] s1 d1 hwf hfr rfl hrun

lemma setLookAheadBranches_post (env : EngineEnv) (f : CurrencyFormat) (pn : Bool)
    (fuel : Nat) (hinj : Function.Injective (deriveSpk env.walletTools)) :
    ∀ (bs : List Nat) (s : Store) (dispatched : List String) (s' : Store)
      (d' : List String),
      bs.Nodup →
      StoreWf env.walletTools s →
      setLookAheadBranches env f pn fuel bs s dispatched = some (s', d') →
      StoreWf env.walletTools s' ∧
      (∀ b ∈ bs, ∃ fr, getFreshIndex s' env.currencyInfo.gapLimit f b true = some fr ∧
        fr + env.currencyInfo.gapLimit ≤ s'.fetchAddressCountFromPathPartition f b) ∧
      (∀ (f' : CurrencyFormat) (c' : Nat), (∀ b ∈ bs, ¬ (f' = f ∧ c' = b)) →
        getPartition s' f' c' = getPartition s f' c' ∧
        ∀ j, fetchAddressDataByPath s' ⟨f', c', j⟩ = fetchAddressDataByPath s ⟨f', c', j⟩) := by
  intro bs
  induction bs with
  | nil =>
      intro s dispatched s' d' hnd hwf hrun
      simp only [setLookAheadBranches, Option.some.injEq, Prod.mk.injEq] at hrun
      obtain ⟨hs, -⟩ := hrun
      subst hs
      refine ⟨hwf, by simp, ?_⟩
      intro f' c' _
      exact ⟨rfl, fun j => rfl⟩
  | cons b rest ihb =>
      intro s dispatched s' d' hnd hwf hrun
      rw [setLookAheadBranches] at hrun
      cases hb : setLookAheadBranch env f pn fuel s b with
      | none => rw [hb] at hrun; cases hrun
      | some pr =>
          obtain ⟨s1, d1⟩ := pr
          rw [hb] at hrun
          have hrun2 : setLookAheadBranches env f pn fuel rest s1 (dispatched ++ d1)
              = some (s', d') := hrun
          clear hrun
          obtain ⟨hwf1, ⟨fr, hfr, hle⟩, hpne1, hd1⟩ :=
            setLookAheadBranch_post env f pn fuel hinj s b s1 d1 hwf hb
          have hbrest : b ∉ rest := (List.nodup_cons.mp hnd).1
          have hndrest : rest.Nodup := (List.nodup_cons.mp hnd).2
          obtain ⟨hwf', hpost', hframe'⟩ :=
            ihb s1 (dispatched ++ d1) s' d' hndrest hwf1 hrun2
          have hfb : (∀ b'' ∈ rest, ¬ (f = f ∧ b = b'')) := by
            intro b'' hb'' hc
            exact hbrest (hc.2 ▸ hb'')
          obtain ⟨hpartb, hdatab⟩ := hframe' f b hfb
          refine ⟨hwf', ?_, ?_⟩
          · intro b' hb'
            rcases List.mem_cons.mp hb' with hb1 | hb1
            · subst hb1
              have hcnt : s'.fetchAddressCountFromPathPartition f b'
                  = s1.fetchAddressCountFromPathPartition f b' := by
                show (getPartition s' f b').length = (getPartition s1 f b').length
                rw [hpartb]
              have hgf : getFreshIndex s' env.currencyInfo.gapLimit f b' true
                  = getFreshIndex s1 env.currencyInfo.gapLimit f b' true :=
                getFreshIndex_congr s' s1 env.currencyInfo.gapLimit f b' hcnt hdatab
              exact ⟨fr, by rw [hgf]; exact hfr, by omega⟩
            · exact hpost' b' hb1
          · intro f' c' hall
            have hallrest : ∀ b'' ∈ rest, ¬ (f' = f ∧ c' = b'') := by
              intro b'' hb'' hc
              exact hall b'' (List.mem_cons_of_mem _ hb'') hc
            have hnotb : ¬ (f' = f ∧ c' = b) :=
              hall b (List.mem_cons_self _ _)
            obtain ⟨hp2, hd2⟩ := hframe' f' c' hallrest
            refine ⟨by rw [hp2, hpne1 f' c' hnotb], ?_⟩
            intro j
            rw [hd2 j, hd1 f' c' j hnotb]

lemma getFormatSupportedBranches_nodup (format : CurrencyFormat) :
    (getFormatSupportedBranches format).Nodup := by
  cases format <;> decide

/-- C1: whenever a setLookAhead call completes successfully on a well-formed
store (derivation injective, keys unique, partitions consistent), every
supported branch of the format ends with
addressCount >= freshIndex + gapLimit. -/
theorem setLookAhead_ensures_gap (env : EngineEnv) (fuel : Nat) (s : Store)
    (format : CurrencyFormat) (processNewAddresses : Bool) (s' : Store)
    (d : List String)
    (hinj : Function.Injective (deriveSpk env.walletTools))
    (hwf : StoreWf env.walletTools s)
    (hrun : setLookAhead env fuel s format processNewAddresses = some (s', d)) :
    ∀ branch ∈ getFormatSupportedBranches format,
      ∃ fr, getFreshIndex s' env.currencyInfo.gapLimit format branch true = some fr ∧
        fr + env.currencyInfo.gapLimit
          ≤ s'.fetchAddressCountFromPathPartition format branch := by
  unfold setLookAhead at hrun
  exact (setLookAheadBranches_post env format processNewAddresses fuel hinj
    (getFormatSupportedBranches format) s [] s' d
    (getFormatSupportedBranches_nodup format) hwf hrun).2.1

lemma lookAheadLoop_exit (env : EngineEnv) (f : CurrencyFormat) (b : Nat)
    (pn : Bool) (fuel : Nat) (s : Store) (fresh i : Nat) (d : List String)
    (hcond : ¬ i < fresh + env.currencyInfo.gapLimit) :
    lookAheadLoop env f b pn (fuel + 1) s fresh i d = some (s, d) := by
  rw [lookAheadLoop, if_neg hcond]

lemma lookAheadLoop_step (env : EngineEnv) (f : CurrencyFormat) (b : Nat)
    (pn : Bool) (fuel : Nat) (s : Store) (fresh i : Nat) (d : List String)
    (s1 : Store) (isNew : Bool) (d1 : List String) (fresh1 : Nat)
    (hcond : i < fresh + env.currencyInfo.gapLimit)
    (hsave : saveNewOrUpdateAddressPathIfNeeded env.walletTools s
      (some ⟨f, b, i⟩) none = some (s1, isNew))
    (hdisp : (if isNew ∧ pn then
        (dispatchAddress env s1 ⟨f, b, i⟩).map (fun a => d ++ [a])
      else some d) = some d1)
    (hfr : getFreshIndex s1 env.currencyInfo.gapLimit f b true = some fresh1) :
    lookAheadLoop env f b pn (fuel + 1) s fresh i d
      = lookAheadLoop env f b pn fuel s1 fresh1 (i + 1) d1 := by
  rw [lookAheadLoop, if_pos hcond, hsave]
  have hstep : (match (if isNew ∧ pn then
        (dispatchAddress env s1 ⟨f, b, i⟩).map (fun a => d ++ [a]) else some d) with
    | none => none
    | some dispatched1 =>
      match getFreshIndex s1 env.currencyInfo.gapLimit f b true with
      | none => none
      | some freshIndex1 =>
          lookAheadLoop env f b pn fuel s1 freshIndex1 (i + 1) dispatched1)
      = lookAheadLoop env f b pn fuel s1 fresh1 (i + 1) d1 := by
    rw [hdisp, hfr]
  exact hstep

/-- Injective numeric code of a format. -/
def formatCode : CurrencyFormat → Nat
  | .bip32 => 0
  | .bip44 => 1
  | .bip49 => 2
  | .bip84 => 3

/-- Injective numeric code of a path. -/
def pathEncNat (p : AddressPath) : Nat :=
  Nat.pair (formatCode p.format) (Nat.pair p.changeIndex p.addressIndex)

/-- A concrete injective derivation used by the witness environments. -/
def pathEnc (p : AddressPath) : String :=
  String.mk (List.replicate (pathEncNat p) 'a')

lemma formatCode_injective : Function.Injective formatCode := by
  intro a b h
  cases a <;> cases b <;> first | rfl | (exfalso; simp [formatCode] at h)

lemma pathEnc_injective : Function.Injective pathEnc := by
  intro p q h
  unfold pathEnc at h
  injection h with h1
  have h2 : pathEncNat p = pathEncNat q := by
    have := congrArg List.length h1
    simpa using this
  unfold pathEncNat at h2
  rw [Nat.pair_eq_pair] at h2
  obtain ⟨hf, hci⟩ := h2
  rw [Nat.pair_eq_pair] at hci
  obtain ⟨hc, hi⟩ := hci
  have hfe := formatCode_injective hf
  cases p
  cases q
  simp_all

/-- Witness wallet tools: the injective pathEnc derivation, identity
encodings. -/
def wtW : WalletToolsM :=
  { getScriptPubkey := fun p => ⟨pathEnc p, none⟩,
    addressToScriptPubkey := fun a => a,
    scriptPubkeyToAddress := fun spk _ => ⟨spk, spk⟩ }

/-- Witness indexer: empty chain. -/
def bbW : BlockBookM :=
  { fetchAddressInfo := fun _ => ⟨0, 0, 0, 0⟩,
    fetchAddressTxPage := fun _ _ => [],
    totalPages := fun _ => 0,
    fetchAddressUtxos := fun _ => [],
    fetchTransaction := fun _ => ⟨"", "", 0, 0, 0, [], []⟩ }

/-- Witness environment: gapLimit 1. -/
def envW : EngineEnv :=
  { currencyInfo := ⟨1, "BTC"⟩,
    walletTools := wtW,
    blockBook := bbW,
    validSpkFromAddress := fun a => a }

lemma deriveSpk_wtW_injective : Function.Injective (deriveSpk wtW) :=
  fun p q h => pathEnc_injective h

/-- The one address record the witness setLookAhead run creates. -/
def wAddr1 : IAddress :=
  { scriptPubkey := "", path := some ⟨CurrencyFormat.bip32, 0, 0⟩,
    used := false, balance := 0, networkQueryVal := 0, lastQuery := 0,
    lastTouched := 0 }

/-- The store after the witness setLookAhead run: one fresh address on the
bip32 receive branch. -/
def wStore1 : Store :=
  { addrs := [wAddr1],
    pathPartitions := [((CurrencyFormat.bip32, 0), [""])],
    utxos := [], txs := [] }

/-- C1 witness: the theorem applied to a concrete injective derivation, the
empty well-formed store and gapLimit 1 on the bip32 format. -/
theorem setLookAhead_ensures_gap_witness :
    ∃ fr, getFreshIndex wStore1 1 CurrencyFormat.bip32 0 true = some fr ∧
      fr + 1 ≤ wStore1.fetchAddressCountFromPathPartition CurrencyFormat.bip32 0 := by
  have h1 : getFreshIndex emptyStore envW.currencyInfo.gapLimit
      CurrencyFormat.bip32 0 true = some 0 := by decide
  have hsave : saveNewOrUpdateAddressPathIfNeeded envW.walletTools emptyStore
      (some ⟨CurrencyFormat.bip32, 0, 0⟩) none = some (wStore1, true) := by decide
  have h2 : findFreshIndex wStore1 CurrencyFormat.bip32 0 0 = some 0 := by
    rw [findFreshIndex]
    decide
  have h3 : getFreshIndex wStore1 envW.currencyInfo.gapLimit
      CurrencyFormat.bip32 0 true = some 0 := by
    have hc : wStore1.fetchAddressCountFromPathPartition CurrencyFormat.bip32 0 = 1 := by
      decide
    have hg : envW.currencyInfo.gapLimit = 1 := rfl
    unfold getFreshIndex
    rw [hc, hg]
    norm_num
    exact h2
  have hloop2 : lookAheadLoop envW CurrencyFormat.bip32 0 false 2 emptyStore 0 0 []
      = lookAheadLoop envW CurrencyFormat.bip32 0 false 1 wStore1 0 1 [] := by
    exact lookAheadLoop_step envW CurrencyFormat.bip32 0 false 1 emptyStore 0 0 []
      wStore1 true [] 0 (by decide) hsave (by decide) h3
  have hloop1 : lookAheadLoop envW CurrencyFormat.bip32 0 false 1 wStore1 0 1 []
      = some (wStore1, []) := by
    exact lookAheadLoop_exit envW CurrencyFormat.bip32 0 false 0 wStore1 0 1 []
      (by decide)
  have hbr : setLookAheadBranch envW CurrencyFormat.bip32 false 2 emptyStore 0
      = some (wStore1, []) := by
    unfold setLookAheadBranch
    rw [h1]
    show lookAheadLoop envW CurrencyFormat.bip32 0 false 2 emptyStore 0 0 []
      = some (wStore1, [])
    rw [hloop2, hloop1]
  have hrun : setLookAhead envW 2 emptyStore CurrencyFormat.bip32 false
      = some (wStore1, []) := by
    show setLookAheadBranches envW CurrencyFormat.bip32 false 2 [0] emptyStore []
      = some (wStore1, [])
    rw [setLookAheadBranches, hbr]
    rfl
  exact setLookAhead_ensures_gap envW 2 emptyStore CurrencyFormat.bip32 false
    wStore1 [] deriveSpk_wtW_injective (emptyStore_wf wtW) hrun 0 (by decide)

/-- Events the engine emits (the progress event is outside the embedded
claims). -/
inductive EngineEvent
  | balanceChanged (currencyCode : String) (balance : Int)
  | txidsChanged (txidMap : List (String × Int))
deriving DecidableEq

/-- processRawTx of the source: normalize a raw indexer transaction into the
store's canonical form.  An input scriptPubkey is synthesized from the
input's first declared address (an empty address list falls back to the
empty string); an output uses its hex when present; vout of an input may be
absent and is kept optional; the wallet annotation slots start empty. -/
def processRawTx (env : EngineEnv) (tx : ITransaction) : ProcessorTransaction :=
  { txid := tx.txid,
    hex := tx.hex,
    blockHeight := tx.blockHeight,
    date := tx.blockTime,
    fees := tx.fees,
    inputs := tx.vin.map (fun input =>
      { txId := input.txid,
        outputIndex := input.vout,
        scriptPubkey := env.validSpkFromAddress input.addresses.headI,
        amount := input.value }),
    outputs := tx.vout.map (fun output =>
      { index := output.n,
        scriptPubkey := output.hex.getD (env.validSpkFromAddress output.addresses.headI),
        amount := output.value }),
    ourIns := [], ourOuts := [], ourAmount := 0 }

/-- fetchTransaction of the source: the stored record when present, else the
indexer's raw transaction normalized (not saved). -/
def fetchTransaction (env : EngineEnv) (s : Store) (txid : String) :
    ProcessorTransaction :=
  match s.fetchTransaction txid with
  | some tx => tx
  | none => processRawTx env (env.blockBook.fetchTransaction txid)

/-- JS-object insertion into the changed-txid map: an existing key is
overwritten in place, a new key is appended. -/
def insertTxidMap (m : List (String × Int)) (k : String) (v : Int) :
    List (String × Int) :=
  keyedUpsert (fun e => e.1) m (k, v)

/-- Lookup in a changed-txid map. -/
def lookupTxidMap (m : List (String × Int)) (k : String) : Option Int :=
  (keyedFind (fun e => e.1) m k).map (fun e => e.2)

/-- The per-page body of processAddressTransactions: persist each normalized
transaction of the page and accumulate the changed-txid map. -/
def pageSaveFold (env : EngineEnv) (s : Store) (address : String) (page : Nat) :
    Store × List (String × Int) :=
  (env.blockBook.fetchAddressTxPage address page).foldl
    (fun (acc : Store × List (String × Int)) rawTx =>
      let tx := processRawTx env rawTx
      (acc.1.saveTransaction tx, insertTxidMap acc.2 tx.txid tx.date))
    (s, [])

/-- The changed-txid map one page accumulates, taken on its own (it does not
depend on the store). -/
def pageTxidMap (env : EngineEnv) (address : String) (page : Nat) :
    List (String × Int) :=
  (env.blockBook.fetchAddressTxPage address page).foldl
    (fun m rawTx =>
      insertTxidMap m (processRawTx env rawTx).txid (processRawTx env rawTx).date)
    []

/-- processAddressTransactions of the source: fetch one page of the address
history (the from checkpoint networkQueryVal and the page size of 10 are
absorbed by the page oracle, as the engine never rewrites networkQueryVal),
persist each transaction of the page while accumulating the changed-txid
map, emit TXIDS_CHANGED for the page, and recurse while page < totalPages.
The emission guard reads (transactions.length ?? 0 > 0) in the source; JS
precedence parses it as transactions.length ?? (0 > 0), and length is never
nullish, so the guard is the truthiness of length, i.e. length is not 0. -/
def processAddressTransactions (env : EngineEnv) (s : Store) (address : String)
    (page : Nat) : Store × List EngineEvent :=
  let transactions := env.blockBook.fetchAddressTxPage address page
  let totalPages := env.blockBook.totalPages address
  let folded := pageSaveFold env s address page
  let events : List EngineEvent :=
    if transactions.length ≠ 0 then [EngineEvent.txidsChanged folded.2] else []
  if h : page < totalPages then
    let rest := processAddressTransactions env folded.1 address (page + 1)
    (rest.1, events ++ rest.2)
  else (folded.1, events)
termination_by env.blockBook.totalPages address - page
decreasing_by
  omega

/-- The id template literal of processAddressUtxos: txid_vout. -/
def utxoId (u : AccountUtxo) : String :=
  u.txid ++ "_" ++ toString u.vout

/-- The UTXO record processAddressUtxos saves for a newly seen indexer
UTXO: script fields switched on the path's purpose type (Airbitz/legacy
pull the script from the fetched transaction hex, wrapped segwit uses the
scriptPubkey plus a redeem script, native segwit the scriptPubkey). -/
def newUtxoRec (env : EngineEnv) (spk : String) (pa : AddressPath) (st : Store)
    (u : AccountUtxo) : IUTXO :=
  let srr : ScriptTypeEnum × String × Option String :=
    match currencyFormatToPurposeType pa.format with
    | .airbitz => (ScriptTypeEnum.p2pkh, (fetchTransaction env st u.txid).hex, none)
    | .legacy => (ScriptTypeEnum.p2pkh, (fetchTransaction env st u.txid).hex, none)
    | .wrappedSegwit =>
        (ScriptTypeEnum.p2wpkhp2sh, spk,
          (env.walletTools.getScriptPubkey pa).redeemScript)
    | .segwit => (ScriptTypeEnum.p2wpkh, spk, none)
  { id := utxoId u, txid := u.txid, vout := u.vout, value := u.value,
    scriptPubkey := spk, script := srr.2.1, redeemScript := srr.2.2,
    scriptType := srr.1, blockHeight := u.height.getD 0 }

/-- The loop body of processAddressUtxos over one indexer UTXO: an id
already in the old map is crossed off it, a new one is saved. -/
def utxoReconStep (env : EngineEnv) (spk : String) (pa : AddressPath)
    (acc : Store × List (String × IUTXO)) (u : AccountUtxo) :
    Store × List (String × IUTXO) :=
  if acc.2.any (fun e => decide (e.1 = utxoId u)) then
    (acc.1, acc.2.filter (fun e => decide (e.1 ≠ utxoId u)))
  else (acc.1.saveUtxo (newUtxoRec env spk pa acc.1 u), acc.2)

/-- processAddressUtxos of the source: reconcile the stored UTXO set of the
address's scriptPubkey against the indexer.  A missing record or one
without a path returns early.  Otherwise each indexer UTXO already present
in the old map is kept (and crossed off), a new one is saved with its
script fields chosen by the path's purpose type, and whatever is left of
the old map afterwards is removed from the store. -/
def processAddressUtxos (env : EngineEnv) (s : Store) (address : String) : Store :=
  let scriptPubkey := env.walletTools.addressToScriptPubkey address
  match s.fetchAddressByScriptPubkey scriptPubkey with
  | none => s
  | some addressData =>
    match addressData.path with
    | none => s
    | some path =>
      let oldUtxos := s.fetchUtxosByScriptPubkey scriptPubkey
      let oldUtxoMap := oldUtxos.map (fun u => (u.id, u))
      let accountUtxos := env.blockBook.fetchAddressUtxos address
      let folded := accountUtxos.foldl (utxoReconStep env scriptPubkey path)
        (s, oldUtxoMap)
      folded.2.foldl (fun st e => st.removeUtxo e.2) folded.1

/-- What one processAddress run produces: the final store, the watch set,
the emitted events, the processAddress jobs setLookAhead queued, and
whether setLookAhead was invoked. -/
structure ProcessAddressResult where
  store : Store
  watchSet : List String
  events : List EngineEvent
  dispatched : List String
  invokedSetLookAhead : Bool
deriving DecidableEq

/-- processAddress of the source: look up the record (the non-null assertion
on a missing record is none), capture previouslyUsed, grow the watch set on
first visit (the re-subscription callback re-enters processAddress
asynchronously and is outside this sequential embedding), fetch the account
summary, emit BALANCE_CHANGED on a changed balance, compute the fresh used
flag, run the transaction pagination, the UTXO reconciliation and the
record update (the source awaits these three in Promise.all; they are
composed here in program order), and finally invoke setLookAhead with
processNewAddresses when the address just flipped to used and its record
carries a path. -/
def processAddress (env : EngineEnv) (fuel : Nat) (s : Store)
    (addressesToWatch : List String) (address : String) :
    Option ProcessAddressResult :=
  let scriptPubkey := env.walletTools.addressToScriptPubkey address
  match s.fetchAddressByScriptPubkey scriptPubkey with
  | none => none
  | some addressData =>
    let previouslyUsed := addressData.used
    let firstProcess := ¬ addressesToWatch.contains address
    let watch1 := if firstProcess then address :: addressesToWatch else addressesToWatch
    let accountDetails := env.blockBook.fetchAddressInfo address
    let oldBalance := addressData.balance
    let balance := accountDetails.balance + accountDetails.unconfirmedBalance
    let balanceEvents : List EngineEvent :=
      if oldBalance ≠ balance then
        [EngineEvent.balanceChanged env.currencyInfo.currencyCode balance]
      else []
    let used : Bool := decide (0 < accountDetails.txs) || decide (0 < accountDetails.unconfirmedTxs)
    let afterTxs := processAddressTransactions env s address 1
    let s2 := processAddressUtxos env afterTxs.1 address
    let s3 := s2.updateAddressByScriptPubkey scriptPubkey balance used
    if previouslyUsed = false ∧ used = true then
      match addressData.path with
      | some pa =>
          match setLookAhead env fuel s3 pa.format true with
          | none => none
          | some (s4, dispatched) =>
              some ⟨s4, watch1, balanceEvents ++ afterTxs.2, dispatched, true⟩
      | none => some ⟨s3, watch1, balanceEvents ++ afterTxs.2, [], false⟩
    else some ⟨s3, watch1, balanceEvents ++ afterTxs.2, [], false⟩

/-- The helper getFreshAddress of the source: derive the address at the
fresh index of the branch (the scriptPubkey saved for the path, else the
one derived on the fly; a still-empty scriptPubkey is the thrown unknown
path error, modelled as none). -/
def getFreshAddressHelper (env : EngineEnv) (s : Store) (format : CurrencyFormat)
    (changeIndex : Nat) (find : Bool) : Option AddressReturn :=
  match getFreshIndex s env.currencyInfo.gapLimit format changeIndex find with
  | none => none
  | some idx =>
    let path : AddressPath := ⟨format, changeIndex, idx⟩
    let scriptPubkey := (s.fetchScriptPubkeyByPath path).getD
      (env.walletTools.getScriptPubkey path).scriptPubkey
    if scriptPubkey = "" then none
    else some (env.walletTools.scriptPubkeyToAddress scriptPubkey format)

/-- The wallet descriptor fields the facade reads.  Modelled from the spec:
the purpose type is read from the wallet descriptor, and a wallet declares
the formats it synchronizes. -/
structure WalletInfo where
  purpose : BIP43PurposeTypeEnum
  formats : List CurrencyFormat
deriving DecidableEq

/-- Modelled from the spec: getPurposeTypeFromKeys reads the purpose type
from the wallet descriptor. -/
def getPurposeTypeFromKeys (w : WalletInfo) : BIP43PurposeTypeEnum := w.purpose

/-- The facade's fresh-address result. -/
structure EdgeFreshAddress where
  publicAddress : String
  segwitAddress : Option String
  legacyAddress : Option String
deriving DecidableEq

/-- The facade getFreshAddress of the source: changeIndex is 1 exactly for a
change request on a non-Airbitz purpose; a native-segwit wallet returns the
wrapped-segwit address as publicAddress and the native one as
segwitAddress, both with find = false; any other purpose returns its
format's address, with legacyAddress only when it differs. -/
def engineGetFreshAddress (env : EngineEnv) (w : WalletInfo) (s : Store)
    (change : Bool) : Option EdgeFreshAddress :=
  let walletPurpose := getPurposeTypeFromKeys w
  let changeIndex : Nat :=
    if change = true ∧ walletPurpose ≠ BIP43PurposeTypeEnum.airbitz then 1 else 0
  if walletPurpose = BIP43PurposeTypeEnum.segwit then
    match getFreshAddressHelper env s
        (getCurrencyFormatFromPurposeType BIP43PurposeTypeEnum.wrappedSegwit)
        changeIndex false with
    | none => none
    | some r1 =>
        match getFreshAddressHelper env s
            (getCurrencyFormatFromPurposeType BIP43PurposeTypeEnum.segwit)
            changeIndex false with
        | none => none
        | some r2 =>
            some { publicAddress := r1.address, segwitAddress := some r2.address,
                   legacyAddress := none }
  else
    match getFreshAddressHelper env s
        (getCurrencyFormatFromPurposeType walletPurpose) changeIndex false with
    | none => none
    | some r =>
        some { publicAddress := r.address, segwitAddress := none,
               legacyAddress :=
                 if r.legacyAddress ≠ r.address then some r.legacyAddress else none }

/-- One entry of the server-states connections map of makeServerStates. -/
structure BlockBookConn where
  uri : String
  isConnected : Bool
  broadcastResult : Option String
deriving DecidableEq

/-- Object.keys applied to a JS Map instance: a Map stores its entries in
internal slots, not as own enumerable properties, so the key list is empty
whatever the map holds. -/
def objectKeysOfMap (m : List BlockBookConn) : List String := []

/-- The outcome of one broadcastTx call of makeServerStates. -/
inductive BroadcastOutcome
  | resolved (result : String)
  | rejectedNoConnections
  | rejectedAllFailed
deriving DecidableEq

/-- broadcastTx of makeServerStates: filter Object.keys(connections) down to
the connected servers, reject with the no-connections error when fewer than
one uri remains, then (the source keeps running past the reject) race the
per-uri broadcasts: the first success resolves, and when every one fails
the call rejects.  Returned alongside the outcome is the list of uris whose
connection's broadcastTx was invoked. -/
def broadcastTx (connections : List BlockBookConn) :
    BroadcastOutcome × List String :=
  let uris := (objectKeysOfMap connections).filter
    (fun uri => match keyedFind (fun c => c.uri) connections uri with
      | none => false
      | some c => c.isConnected)
  let attempted := uris.filter
    (fun uri => (keyedFind (fun c => c.uri) connections uri).isSome)
  if uris.length < 1 then (BroadcastOutcome.rejectedNoConnections, attempted)
  else
    match uris.findSome? (fun uri =>
        (keyedFind (fun c => c.uri) connections uri).bind
          (fun c => c.broadcastResult)) with
    | some r => (BroadcastOutcome.resolved r, attempted)
    | none => (BroadcastOutcome.rejectedAllFailed, attempted)

/-- C9: broadcastTx iterates Object.keys of the connections Map; a Map's
entries are not own enumerable properties, so the uri list is empty for
every contents of the map, the call always rejects with the no-connections
error, and no connection's broadcastTx is ever invoked. -/
theorem broadcastTx_always_rejects (connections : List BlockBookConn) :
    broadcastTx connections = (BroadcastOutcome.rejectedNoConnections, []) := rfl

/-- Modelled from the spec: the un-scanned anchor index
max(0, addressCount - gapLimit), written with truncated subtraction. -/
def specAnchorIndex (s : Store) (gapLimit : Nat) (f : CurrencyFormat) (c : Nat) :
    Nat :=
  s.fetchAddressCountFromPathPartition f c - gapLimit

/-- Modelled from the spec: the address derived at the branch's anchor path,
preferring the stored scriptPubkey and failing on an empty one. -/
def specAnchorAddress (env : EngineEnv) (s : Store) (f : CurrencyFormat) (c : Nat) :
    Option AddressReturn :=
  let path : AddressPath := ⟨f, c, specAnchorIndex s env.currencyInfo.gapLimit f c⟩
  let spk := (s.fetchScriptPubkeyByPath path).getD
    (env.walletTools.getScriptPubkey path).scriptPubkey
  if spk = "" then none
  else some (env.walletTools.scriptPubkeyToAddress spk f)

/-- With find = false, getFreshIndex returns the anchor without scanning. -/
lemma getFreshIndex_find_false (s : Store) (g : Nat) (f : CurrencyFormat) (c : Nat) :
    getFreshIndex s g f c false = some (specAnchorIndex s g f c) := by
  simp only [getFreshIndex, specAnchorIndex]
  by_cases h : s.fetchAddressCountFromPathPartition f c < g
  · rw [if_pos h]
    have he : s.fetchAddressCountFromPathPartition f c - g = 0 := by omega
    rw [he]
  · rw [if_neg h]
    rfl

/-- The find = false helper is exactly the spec's anchor derivation. -/
lemma getFreshAddressHelper_false (env : EngineEnv) (s : Store) (f : CurrencyFormat)
    (c : Nat) : getFreshAddressHelper env s f c false = specAnchorAddress env s f c := by
  unfold getFreshAddressHelper specAnchorAddress
  rw [getFreshIndex_find_false]

/-- C6: for a native-segwit wallet, getFreshAddress returns the
wrapped-segwit derivation as publicAddress and the native-segwit one as
segwitAddress; both getFreshIndex calls use find = false and hence the
un-scanned anchor index max(0, addressCount - gapLimit) of the requested
branch, and both returned addresses are the spec's anchor derivations. -/
theorem engineGetFreshAddress_segwit (env : EngineEnv) (w : WalletInfo) (s : Store)
    (change : Bool) (ci : Nat) (out : EdgeFreshAddress)
    (hw : w.purpose = BIP43PurposeTypeEnum.segwit)
    (hci : ci = if change = true then 1 else 0)
    (hrun : engineGetFreshAddress env w s change = some out) :
    getFreshIndex s env.currencyInfo.gapLimit CurrencyFormat.bip49 ci false
      = some (specAnchorIndex s env.currencyInfo.gapLimit CurrencyFormat.bip49 ci) ∧
    getFreshIndex s env.currencyInfo.gapLimit CurrencyFormat.bip84 ci false
      = some (specAnchorIndex s env.currencyInfo.gapLimit CurrencyFormat.bip84 ci) ∧
    (specAnchorAddress env s CurrencyFormat.bip49 ci).map (fun r => r.address)
      = some out.publicAddress ∧
    (specAnchorAddress env s CurrencyFormat.bip84 ci).map (fun r => r.address)
      = out.segwitAddress := by
  unfold engineGetFreshAddress at hrun
  simp only [getPurposeTypeFromKeys, hw, reduceIte, ne_eq, reduceCtorEq,
    not_false_eq_true, and_true, getCurrencyFormatFromPurposeType] at hrun
  rw [← hci] at hrun
  cases hh1 : getFreshAddressHelper env s CurrencyFormat.bip49 ci false with
  | none =>
      rw [hh1] at hrun
      simp at hrun
  | some r1 =>
      rw [hh1] at hrun
      cases hh2 : getFreshAddressHelper env s CurrencyFormat.bip84 ci false with
      | none =>
          rw [hh2] at hrun
          simp at hrun
      | some r2 =>
          rw [hh2] at hrun
          have hrun2 : some (⟨r1.address, some r2.address, none⟩ : EdgeFreshAddress)
              = some out := hrun
          injection hrun2 with h
          subst h
          refine ⟨getFreshIndex_find_false s env.currencyInfo.gapLimit _ ci,
            getFreshIndex_find_false s env.currencyInfo.gapLimit _ ci, ?_, ?_⟩
          · rw [← getFreshAddressHelper_false, hh1]
            rfl
          · rw [← getFreshAddressHelper_false, hh2]
            rfl

/-- The C6 witness wallet: native-segwit purpose. -/
def wC6 : WalletInfo :=
  ⟨BIP43PurposeTypeEnum.segwit, [CurrencyFormat.bip49, CurrencyFormat.bip84]⟩

/-- The fresh-address result of the C6 witness run. -/
def outC6 : EdgeFreshAddress :=
  { publicAddress := pathEnc ⟨CurrencyFormat.bip49, 0, 0⟩,
    segwitAddress := some (pathEnc ⟨CurrencyFormat.bip84, 0, 0⟩),
    legacyAddress := none }

/-- C6 witness: the concrete native-segwit wallet over the one-record store
runs to completion and its two addresses are the anchor derivations. -/
theorem engineGetFreshAddress_segwit_witness :
    getFreshIndex wStore1 envW.currencyInfo.gapLimit CurrencyFormat.bip49 0 false
      = some (specAnchorIndex wStore1 envW.currencyInfo.gapLimit CurrencyFormat.bip49 0) ∧
    getFreshIndex wStore1 envW.currencyInfo.gapLimit CurrencyFormat.bip84 0 false
      = some (specAnchorIndex wStore1 envW.currencyInfo.gapLimit CurrencyFormat.bip84 0) ∧
    (specAnchorAddress envW wStore1 CurrencyFormat.bip49 0).map (fun r => r.address)
      = some outC6.publicAddress ∧
    (specAnchorAddress envW wStore1 CurrencyFormat.bip84 0).map (fun r => r.address)
      = outC6.segwitAddress :=
  engineGetFreshAddress_segwit envW wC6 wStore1 false 0 outC6 rfl (by decide) (by decide)

/-- C4: processAddress invokes setLookAhead (with processNewAddresses, for
the format of the record's path) exactly when the record's used flag was
false before reconciliation, the freshly computed used value is true, and
the record carries a path; in particular a pathless (externally imported)
record that becomes used never triggers it. -/
theorem processAddress_lookahead_iff (env : EngineEnv) (fuel : Nat) (s : Store)
    (watch : List String) (address : String) (ad : IAddress)
    (out : ProcessAddressResult)
    (had : s.fetchAddressByScriptPubkey (env.walletTools.addressToScriptPubkey address)
      = some ad)
    (hrun : processAddress env fuel s watch address = some out) :
    (out.invokedSetLookAhead = true ↔
      (ad.used = false ∧
        (0 < (env.blockBook.fetchAddressInfo address).txs ∨
          0 < (env.blockBook.fetchAddressInfo address).unconfirmedTxs) ∧
        ad.path ≠ none)) ∧
    (ad.path = none → out.invokedSetLookAhead = false) := by
  unfold processAddress at hrun
  dsimp only at hrun
  rw [had] at hrun
  dsimp only at hrun
  split at hrun
  · next hg =>
    split at hrun
    · next pa hp =>
      split at hrun
      · next hsl =>
        cases hrun
      · next s4 disp hsl =>
        cases hrun
        constructor
        · constructor
          · intro _
            refine ⟨hg.1, ?_, ?_⟩
            · have h2 := hg.2
              simp only [Bool.or_eq_true, decide_eq_true_eq] at h2
              exact h2
            · rw [hp]
              exact fun hc => Option.noConfusion hc
          · intro _
            rfl
        · intro hnone
          rw [hnone] at hp
          exact Option.noConfusion hp
    · next hp =>
      cases hrun
      constructor
      · constructor
        · intro hfalse
          exact (Bool.false_ne_true hfalse).elim
        · rintro ⟨-, -, hpath⟩
          exact absurd hp hpath
      · intro _
        rfl
  · next hg =>
    cases hrun
    constructor
    · constructor
      · intro hfalse
        exact (Bool.false_ne_true hfalse).elim
      · rintro ⟨h1, h2, -⟩
        exfalso
        apply hg
        refine ⟨h1, ?_⟩
        simp only [Bool.or_eq_true, decide_eq_true_eq]
        exact h2
    · intro _
      rfl

/-- The C4 witness record: pathless, unused, zero balance. -/
def adC4 : IAddress :=
  { scriptPubkey := "k", path := none, used := false, balance := 0,
    networkQueryVal := 0, lastQuery := 0, lastTouched := 0 }

/-- The C4 witness store holding only that record. -/
def sC4 : Store :=
  { addrs := [adC4], pathPartitions := [], utxos := [], txs := [] }

/-- The C4 witness indexer: a nonzero balance and one confirmed
transaction on the account, but an empty history and UTXO set. -/
def bbC4 : BlockBookM :=
  { fetchAddressInfo := fun _ => ⟨5, 0, 1, 0⟩,
    fetchAddressTxPage := fun _ _ => [],
    totalPages := fun _ => 0,
    fetchAddressUtxos := fun _ => [],
    fetchTransaction := fun _ => ⟨"", "", 0, 0, 0, [], []⟩ }

/-- The C4 witness environment. -/
def envC4 : EngineEnv :=
  { currencyInfo := ⟨1, "BTC"⟩,
    walletTools :=
      { getScriptPubkey := fun p => ⟨pathEnc p, none⟩,
        addressToScriptPubkey := fun _ => "k",
        scriptPubkeyToAddress := fun spk _ => ⟨spk, spk⟩ },
    blockBook := bbC4,
    validSpkFromAddress := fun a => a }

/-- The C4 witness record after reconciliation. -/
def adC4r : IAddress :=
  { scriptPubkey := "k", path := none, used := true, balance := 5,
    networkQueryVal := 0, lastQuery := 0, lastTouched := 0 }

/-- The result of the C4 witness run: the pathless record flips to used,
yet setLookAhead is not invoked. -/
def outC4 : ProcessAddressResult :=
  { store := { addrs := [adC4r], pathPartitions := [], utxos := [], txs := [] },
    watchSet := ["a"],
    events := [EngineEvent.balanceChanged "BTC" 5],
    dispatched := [],
    invokedSetLookAhead := false }

/-- C4 witness: the concrete pathless record becomes used and the run
completes without invoking setLookAhead. -/
theorem processAddress_lookahead_iff_witness :
    (outC4.invokedSetLookAhead = true ↔
      (adC4.used = false ∧
        (0 < (envC4.blockBook.fetchAddressInfo "a").txs ∨
          0 < (envC4.blockBook.fetchAddressInfo "a").unconfirmedTxs) ∧
        adC4.path ≠ none)) ∧
    (adC4.path = none → outC4.invokedSetLookAhead = false) := by
  have htx : processAddressTransactions envC4 sC4 "a" 1 = (sC4, []) := by
    rw [processAddressTransactions]
    decide
  have hrun : processAddress envC4 0 sC4 [] "a" = some outC4 := by
    unfold processAddress
    rw [htx]
    decide
  exact processAddress_lookahead_iff envC4 0 sC4 [] "a" adC4 outC4 (by decide) hrun

/-- The ids of the UTXO records stored under a scriptPubkey. -/
def storedUtxoIds (st : Store) (spk : String) : List String :=
  (st.fetchUtxosByScriptPubkey spk).map (fun u => u.id)

/-- Membership in the stored UTXO ids of a scriptPubkey, unfolded. -/
lemma mem_storedUtxoIds (st : Store) (spk i : String) :
    i ∈ storedUtxoIds st spk ↔ ∃ x ∈ st.utxos, x.scriptPubkey = spk ∧ x.id = i := by
  unfold storedUtxoIds Store.fetchUtxosByScriptPubkey
  simp only [List.mem_map, List.mem_filter, decide_eq_true_eq]
  constructor
  · rintro ⟨x, ⟨hx, hs⟩, hi⟩
    exact ⟨x, hx, hs, hi⟩
  · rintro ⟨x, hx, hs, hi⟩
    exact ⟨x, ⟨hx, hs⟩, hi⟩

/-- A list entry with a key differing from the upserted one survives a
keyed upsert. -/
lemma keyedUpsert_mem_of_ne {α κ : Type} [DecidableEq κ] {key : α → κ}
    {l : List α} {x y : α} (hy : y ∈ l) (hne : key y ≠ key x) :
    y ∈ keyedUpsert key l x := by
  unfold keyedUpsert
  by_cases h : l.any (fun z => decide (key z = key x))
  · rw [if_pos h]
    refine List.mem_map.mpr ⟨y, hy, ?_⟩
    rw [if_neg hne]
  · rw [if_neg h]
    exact List.mem_append.mpr (Or.inl hy)

/-- The upserted element is a member of the upsert. -/
lemma keyedUpsert_self_mem {α κ : Type} [DecidableEq κ] (key : α → κ)
    (l : List α) (x : α) : x ∈ keyedUpsert key l x := by
  unfold keyedUpsert
  by_cases h : l.any (fun z => decide (key z = key x))
  · rw [if_pos h]
    rcases List.any_eq_true.mp h with ⟨z, hz, hdec⟩
    refine List.mem_map.mpr ⟨z, hz, ?_⟩
    rw [if_pos (of_decide_eq_true hdec)]
  · rw [if_neg h]
    exact List.mem_append.mpr (Or.inr (List.mem_singleton.mpr rfl))

/-- saveUtxo adds exactly the record's id to the ids stored under its
scriptPubkey. -/
lemma storedUtxoIds_saveUtxo (st : Store) (u : IUTXO) (spk i : String)
    (hspk : u.scriptPubkey = spk) :
    i ∈ storedUtxoIds (st.saveUtxo u) spk
      ↔ (i ∈ storedUtxoIds st spk ∨ i = u.id) := by
  rw [mem_storedUtxoIds, mem_storedUtxoIds]
  constructor
  · rintro ⟨x, hx, hs, hi⟩
    rcases keyedUpsert_mem hx with heq | ⟨hmem, hne⟩
    · subst heq
      exact Or.inr hi.symm
    · exact Or.inl ⟨x, hmem, hs, hi⟩
  · rintro (⟨x, hx, hs, hi⟩ | hi)
    · by_cases hid : x.id = u.id
      · refine ⟨u, keyedUpsert_self_mem _ _ _, hspk, ?_⟩
        rw [← hid, hi]
      · exact ⟨x, keyedUpsert_mem_of_ne hx hid, hs, hi⟩
    · exact ⟨u, keyedUpsert_self_mem _ _ _, hspk, hi.symm⟩

/-- removeUtxo deletes exactly the record's id from the stored ids. -/
lemma storedUtxoIds_removeUtxo (st : Store) (u : IUTXO) (spk i : String) :
    i ∈ storedUtxoIds (st.removeUtxo u) spk
      ↔ (i ∈ storedUtxoIds st spk ∧ i ≠ u.id) := by
  rw [mem_storedUtxoIds, mem_storedUtxoIds]
  unfold Store.removeUtxo
  constructor
  · rintro ⟨x, hx, hs, hi⟩
    rcases List.mem_filter.mp hx with ⟨hmem, hdec⟩
    have hne := of_decide_eq_true hdec
    exact ⟨⟨x, hmem, hs, hi⟩, by rw [← hi]; exact hne⟩
  · rintro ⟨⟨x, hx, hs, hi⟩, hne⟩
    refine ⟨x, List.mem_filter.mpr ⟨hx, decide_eq_true ?_⟩, hs, hi⟩
    rw [hi]
    exact hne

/-- Folding removeUtxo over a list of map entries keeps exactly the ids
differing from every removed entry's. -/
lemma mem_after_removals (spk i : String) :
    ∀ (entries : List (String × IUTXO)) (st : Store),
      i ∈ storedUtxoIds (entries.foldl (fun st e => st.removeUtxo e.2) st) spk
        ↔ (i ∈ storedUtxoIds st spk ∧ ∀ e ∈ entries, i ≠ e.2.id) := by
  intro entries
  induction entries with
  | nil =>
      intro st
      simp
  | cons e es ih =>
      intro st
      simp only [List.foldl_cons]
      rw [ih (st.removeUtxo e.2), storedUtxoIds_removeUtxo]
      simp only [List.forall_mem_cons]
      tauto

/-- The crossing-off step of utxoReconStep, isolated. -/
lemma utxoReconStep_eq_mem (env : EngineEnv) (spk : String) (pa : AddressPath)
    (acc : Store × List (String × IUTXO)) (u : AccountUtxo)
    (h : acc.2.any (fun e => decide (e.1 = utxoId u)) = true) :
    utxoReconStep env spk pa acc u
      = (acc.1, acc.2.filter (fun e => decide (e.1 ≠ utxoId u))) := by
  unfold utxoReconStep
  rw [if_pos h]

/-- The save step of utxoReconStep, isolated. -/
lemma utxoReconStep_eq_new (env : EngineEnv) (spk : String) (pa : AddressPath)
    (acc : Store × List (String × IUTXO)) (u : AccountUtxo)
    (h : acc.2.any (fun e => decide (e.1 = utxoId u)) = false) :
    utxoReconStep env spk pa acc u
      = (acc.1.saveUtxo (newUtxoRec env spk pa acc.1 u), acc.2) := by
  unfold utxoReconStep
  rw [h]
  rfl

/-- Across the reconciliation fold, the carried old map is the initial one
filtered down to the ids the indexer does not report. -/
lemma utxoRecon_fold_snd (env : EngineEnv) (spk : String) (pa : AddressPath) :
    ∀ (us : List AccountUtxo) (st0 : Store) (m0 : List (String × IUTXO)),
      (us.foldl (utxoReconStep env spk pa) (st0, m0)).2
        = m0.filter (fun e => decide (¬ e.1 ∈ us.map utxoId)) := by
  intro us
  induction us with
  | nil =>
      intro st0 m0
      simp
  | cons u us ih =>
      intro st0 m0
      simp only [List.foldl_cons]
      by_cases h : m0.any (fun e => decide (e.1 = utxoId u)) = true
      · rw [utxoReconStep_eq_mem env spk pa (st0, m0) u h]
        rw [ih st0 (m0.filter (fun e => decide (e.1 ≠ utxoId u)))]
        rw [List.filter_filter]
        refine List.filter_congr ?_
        intro e he
        by_cases h1 : e.1 = utxoId u <;> by_cases h2 : e.1 ∈ us.map utxoId <;>
          simp [h1, h2, List.mem_cons]
      · have hf : m0.any (fun e => decide (e.1 = utxoId u)) = false := by
          cases hb : m0.any (fun e => decide (e.1 = utxoId u))
          · rfl
          · exact absurd hb h
        rw [utxoReconStep_eq_new env spk pa (st0, m0) u hf]
        rw [ih (st0.saveUtxo (newUtxoRec env spk pa st0 u)) m0]
        refine List.filter_congr ?_
        intro e he
        have hne : ¬ e.1 = utxoId u := by
          intro hc
          have : m0.any (fun x => decide (x.1 = utxoId u)) = true :=
            List.any_eq_true.mpr ⟨e, he, decide_eq_true hc⟩
          rw [hf] at this
          exact Bool.false_ne_true this
        simp [List.mem_cons, hne]

/-- Across the reconciliation fold, the ids stored under the scriptPubkey
grow by exactly the indexer ids seen so far, provided every old-map entry
is backed by a stored record. -/
lemma utxoRecon_fold_ids (env : EngineEnv) (spk : String) (pa : AddressPath) :
    ∀ (us : List AccountUtxo) (st0 : Store) (m0 : List (String × IUTXO)),
      (∀ e ∈ m0, ∃ x ∈ st0.utxos, x.scriptPubkey = spk ∧ x.id = e.1) →
      ∀ i : String,
        (i ∈ storedUtxoIds (us.foldl (utxoReconStep env spk pa) (st0, m0)).1 spk
          ↔ (i ∈ storedUtxoIds st0 spk ∨ i ∈ us.map utxoId)) := by
  intro us
  induction us with
  | nil =>
      intro st0 m0 hm i
      simp
  | cons u us ih =>
      intro st0 m0 hm i
      simp only [List.foldl_cons, List.map_cons, List.mem_cons]
      by_cases h : m0.any (fun e => decide (e.1 = utxoId u)) = true
      · rw [utxoReconStep_eq_mem env spk pa (st0, m0) u h]
        rw [ih st0 (m0.filter (fun e => decide (e.1 ≠ utxoId u)))
          (fun e he => hm e (List.mem_of_mem_filter he)) i]
        constructor
        · rintro (h1 | h1)
          · exact Or.inl h1
          · exact Or.inr (Or.inr h1)
        · rintro (h1 | h1 | h1)
          · exact Or.inl h1
          · subst h1
            rcases List.any_eq_true.mp h with ⟨e, he, hdec⟩
            have he1 := of_decide_eq_true hdec
            rcases hm e he with ⟨x, hx, hxs, hxi⟩
            exact Or.inl ((mem_storedUtxoIds st0 spk _).mpr
              ⟨x, hx, hxs, by rw [hxi, he1]⟩)
          · exact Or.inr h1
      · have hf : m0.any (fun e => decide (e.1 = utxoId u)) = false := by
          cases hb : m0.any (fun e => decide (e.1 = utxoId u))
          · rfl
          · exact absurd hb h
        rw [utxoReconStep_eq_new env spk pa (st0, m0) u hf]
        have hm2 : ∀ e ∈ m0,
            ∃ x ∈ (st0.saveUtxo (newUtxoRec env spk pa st0 u)).utxos,
              x.scriptPubkey = spk ∧ x.id = e.1 := by
          intro e he
          rcases hm e he with ⟨x, hx, hxs, hxi⟩
          by_cases hxid : x.id = (newUtxoRec env spk pa st0 u).id
          · exfalso
            have hidu : x.id = utxoId u := hxid
            have : m0.any (fun e => decide (e.1 = utxoId u)) = true :=
              List.any_eq_true.mpr ⟨e, he, decide_eq_true (by rw [← hxi]; exact hidu)⟩
            rw [hf] at this
            exact Bool.false_ne_true this
          · exact ⟨x, keyedUpsert_mem_of_ne hx hxid, hxs, hxi⟩
        rw [ih (st0.saveUtxo (newUtxoRec env spk pa st0 u)) m0 hm2 i]
        rw [storedUtxoIds_saveUtxo st0 (newUtxoRec env spk pa st0 u) spk i rfl]
        have hid : (newUtxoRec env spk pa st0 u).id = utxoId u := rfl
        rw [hid]
        tauto

/-- The C3 counterexample record: exists, but pathless. -/
def adC3 : IAddress :=
  { scriptPubkey := "spkX", path := none, used := true, balance := 0,
    networkQueryVal := 0, lastQuery := 0, lastTouched := 0 }

/-- The C3 counterexample stale stored UTXO. -/
def uC3 : IUTXO :=
  { id := "t_0", txid := "t", vout := 0, value := 1, scriptPubkey := "spkX",
    script := "", redeemScript := none, scriptType := ScriptTypeEnum.p2pkh,
    blockHeight := 0 }

/-- The C3 counterexample store. -/
def sC3 : Store :=
  { addrs := [adC3], pathPartitions := [], utxos := [uC3], txs := [] }

/-- The C3 counterexample environment: the indexer reports no UTXOs. -/
def envC3 : EngineEnv :=
  { currencyInfo := ⟨1, "BTC"⟩,
    walletTools :=
      { getScriptPubkey := fun p => ⟨pathEnc p, none⟩,
        addressToScriptPubkey := fun _ => "spkX",
        scriptPubkeyToAddress := fun spk _ => ⟨spk, spk⟩ },
    blockBook :=
      { fetchAddressInfo := fun _ => ⟨0, 0, 0, 0⟩,
        fetchAddressTxPage := fun _ _ => [],
        totalPages := fun _ => 0,
        fetchAddressUtxos := fun _ => [],
        fetchTransaction := fun _ => ⟨"", "", 0, 0, 0, [], []⟩ },
    validSpkFromAddress := fun a => a }

/-- C3 counterexample: the address record exists (as the claim requires)
but carries no path, so processAddressUtxos early-returns: the stale stored
UTXO id t_0 survives even though the indexer reports no UTXOs, refuting
the claimed set equality for a record that merely exists. -/
theorem processAddressUtxos_pathless_cex :
    (sC3.fetchAddressByScriptPubkey
        (envC3.walletTools.addressToScriptPubkey "a")).isSome = true ∧
    "t_0" ∈ storedUtxoIds (processAddressUtxos envC3 sC3 "a")
      (envC3.walletTools.addressToScriptPubkey "a") ∧
    ¬ "t_0" ∈ (envC3.blockBook.fetchAddressUtxos "a").map utxoId := by
  decide

/-- C3 (amended): for every address whose record exists and carries a path,
after processAddressUtxos the ids of the UTXO records stored under the
address's scriptPubkey are exactly the ids (txid_vout) the indexer
returned: every indexer UTXO not already stored is saved and every stored
UTXO absent from the indexer response is removed.  For a pathless record
the function returns the store unchanged. -/
theorem processAddressUtxos_reconciles (env : EngineEnv) (s : Store)
    (address : String) (ad : IAddress) (pa : AddressPath)
    (had : s.fetchAddressByScriptPubkey (env.walletTools.addressToScriptPubkey address)
      = some ad)
    (hpath : ad.path = some pa) :
    ∀ i : String,
      i ∈ storedUtxoIds (processAddressUtxos env s address)
          (env.walletTools.addressToScriptPubkey address)
        ↔ i ∈ (env.blockBook.fetchAddressUtxos address).map utxoId := by
  intro i
  unfold processAddressUtxos
  dsimp only
  rw [had]
  dsimp only
  rw [hpath]
  dsimp only
  rw [mem_after_removals]
  rw [utxoRecon_fold_snd]
  have hm0 : ∀ e ∈ (s.fetchUtxosByScriptPubkey
        (env.walletTools.addressToScriptPubkey address)).map (fun u => (u.id, u)),
      ∃ x ∈ s.utxos,
        x.scriptPubkey = env.walletTools.addressToScriptPubkey address ∧
        x.id = e.1 := by
    intro e he
    rcases List.mem_map.mp he with ⟨x, hx, rfl⟩
    rcases List.mem_filter.mp hx with ⟨hx1, hx2⟩
    exact ⟨x, hx1, of_decide_eq_true hx2, rfl⟩
  rw [utxoRecon_fold_ids env (env.walletTools.addressToScriptPubkey address) pa
    (env.blockBook.fetchAddressUtxos address) s
    ((s.fetchUtxosByScriptPubkey
      (env.walletTools.addressToScriptPubkey address)).map (fun u => (u.id, u)))
    hm0 i]
  constructor
  · rintro ⟨h1, h2⟩
    by_cases hin : i ∈ (env.blockBook.fetchAddressUtxos address).map utxoId
    · exact hin
    · rcases h1 with h1 | h1
      · exfalso
        rcases (mem_storedUtxoIds s _ i).mp h1 with ⟨x, hx, hxs, hxi⟩
        have hmem : ((x.id, x) : String × IUTXO) ∈ (s.fetchUtxosByScriptPubkey
            (env.walletTools.addressToScriptPubkey address)).map (fun u => (u.id, u)) :=
          List.mem_map.mpr ⟨x, List.mem_filter.mpr ⟨hx, decide_eq_true hxs⟩, rfl⟩
        have hfil : ((x.id, x) : String × IUTXO) ∈ ((s.fetchUtxosByScriptPubkey
            (env.walletTools.addressToScriptPubkey address)).map
              (fun u => (u.id, u))).filter
            (fun e => decide (¬ e.1 ∈ (env.blockBook.fetchAddressUtxos address).map utxoId)) :=
          List.mem_filter.mpr ⟨hmem, decide_eq_true (by rw [hxi]; exact hin)⟩
        exact h2 _ hfil hxi.symm
      · exact absurd h1 hin
  · intro hin
    refine ⟨Or.inr hin, ?_⟩
    intro e he
    rcases List.mem_filter.mp he with ⟨hem, hdec⟩
    have hnotin := of_decide_eq_true hdec
    rcases List.mem_map.mp hem with ⟨x, hx, rfl⟩
    intro hcontra
    apply hnotin
    rw [hcontra] at hin
    exact hin

/-- The C3 witness path. -/
def pC3w : AddressPath := ⟨CurrencyFormat.bip84, 0, 0⟩

/-- The C3 witness record: exists and carries a path. -/
def adC3w : IAddress :=
  { scriptPubkey := "spkW", path := some pC3w, used := true, balance := 0,
    networkQueryVal := 0, lastQuery := 0, lastTouched := 0 }

/-- The C3 witness stale stored UTXO. -/
def uC3w : IUTXO :=
  { id := "t_0", txid := "t", vout := 0, value := 1, scriptPubkey := "spkW",
    script := "", redeemScript := none, scriptType := ScriptTypeEnum.p2wpkh,
    blockHeight := 0 }

/-- The C3 witness store. -/
def sC3w : Store :=
  { addrs := [adC3w], pathPartitions := [], utxos := [uC3w], txs := [] }

/-- The C3 witness environment: the indexer reports exactly one UTXO n:1. -/
def envC3w : EngineEnv :=
  { currencyInfo := ⟨1, "BTC"⟩,
    walletTools :=
      { getScriptPubkey := fun p => ⟨pathEnc p, none⟩,
        addressToScriptPubkey := fun _ => "spkW",
        scriptPubkeyToAddress := fun spk _ => ⟨spk, spk⟩ },
    blockBook :=
      { fetchAddressInfo := fun _ => ⟨0, 0, 0, 0⟩,
        fetchAddressTxPage := fun _ _ => [],
        totalPages := fun _ => 0,
        fetchAddressUtxos := fun _ => [⟨"n", 1, 5, some 3⟩],
        fetchTransaction := fun _ => ⟨"", "", 0, 0, 0, [], []⟩ },
    validSpkFromAddress := fun a => a }

/-- C3 witness: on the concrete pathed record, the new indexer id n_1 is
stored afterwards and the stale id t_0 is gone. -/
theorem processAddressUtxos_reconciles_witness :
    ("n_1" ∈ storedUtxoIds (processAddressUtxos envC3w sC3w "a")
        (envC3w.walletTools.addressToScriptPubkey "a")
      ↔ "n_1" ∈ (envC3w.blockBook.fetchAddressUtxos "a").map utxoId) ∧
    ("t_0" ∈ storedUtxoIds (processAddressUtxos envC3w sC3w "a")
        (envC3w.walletTools.addressToScriptPubkey "a")
      ↔ "t_0" ∈ (envC3w.blockBook.fetchAddressUtxos "a").map utxoId) :=
  ⟨processAddressUtxos_reconciles envC3w sC3w "a" adC3w pC3w (by decide) (by decide) "n_1",
   processAddressUtxos_reconciles envC3w sC3w "a" adC3w pC3w (by decide) (by decide) "t_0"⟩

/-- The changed-txid map a page fold carries does not depend on the store
component it threads. -/
lemma foldl_pair_snd (env : EngineEnv) :
    ∀ (ts : List ITransaction) (s : Store) (m : List (String × Int)),
      (ts.foldl (fun (acc : Store × List (String × Int)) rawTx =>
          let tx := processRawTx env rawTx
          (acc.1.saveTransaction tx, insertTxidMap acc.2 tx.txid tx.date)) (s, m)).2
        = ts.foldl (fun m rawTx =>
            insertTxidMap m (processRawTx env rawTx).txid (processRawTx env rawTx).date) m := by
  intro ts
  induction ts with
  | nil =>
      intro s m
      rfl
  | cons t ts ih =>
      intro s m
      simp only [List.foldl_cons]
      exact ih (s.saveTransaction (processRawTx env t))
        (insertTxidMap m (processRawTx env t).txid (processRawTx env t).date)

/-- The map component of pageSaveFold is pageTxidMap. -/
lemma pageSaveFold_snd (env : EngineEnv) (s : Store) (address : String) (page : Nat) :
    (pageSaveFold env s address page).2 = pageTxidMap env address page := by
  unfold pageSaveFold pageTxidMap
  exact foldl_pair_snd env (env.blockBook.fetchAddressTxPage address page) s []

/-- The last page of processAddressTransactions, unfolded. -/
lemma processAddressTransactions_exit (env : EngineEnv) (s : Store) (address : String)
    (page : Nat) (h : ¬ page < env.blockBook.totalPages address) :
    processAddressTransactions env s address page
      = ((pageSaveFold env s address page).1,
          if (env.blockBook.fetchAddressTxPage address page).length ≠ 0 then
            [EngineEvent.txidsChanged (pageSaveFold env s address page).2]
          else []) := by
  rw [processAddressTransactions]
  dsimp only
  rw [dif_neg h]

/-- A non-final page of processAddressTransactions, unfolded. -/
lemma processAddressTransactions_step (env : EngineEnv) (s : Store) (address : String)
    (page : Nat) (h : page < env.blockBook.totalPages address) :
    processAddressTransactions env s address page
      = ((processAddressTransactions env (pageSaveFold env s address page).1
            address (page + 1)).1,
          (if (env.blockBook.fetchAddressTxPage address page).length ≠ 0 then
            [EngineEvent.txidsChanged (pageSaveFold env s address page).2]
          else [])
          ++ (processAddressTransactions env (pageSaveFold env s address page).1
            address (page + 1)).2) := by
  rw [processAddressTransactions]
  dsimp only
  rw [dif_pos h]

/-- Events emitted from a page onward: one TXIDS_CHANGED per non-empty
page, in page order, each carrying that page's changed-txid map. -/
lemma processAddressTransactions_events (env : EngineEnv) (address : String) :
    ∀ (s : Store) (page : Nat),
      (processAddressTransactions env s address page).2
        = ((List.range' page (env.blockBook.totalPages address - page + 1)).filter
            (fun pg => decide (¬ env.blockBook.fetchAddressTxPage address pg = []))).map
            (fun pg => EngineEvent.txidsChanged (pageTxidMap env address pg)) := by
  suffices h : ∀ (n : Nat) (s : Store) (page : Nat),
      env.blockBook.totalPages address - page = n →
      (processAddressTransactions env s address page).2
        = ((List.range' page (env.blockBook.totalPages address - page + 1)).filter
            (fun pg => decide (¬ env.blockBook.fetchAddressTxPage address pg = []))).map
            (fun pg => EngineEvent.txidsChanged (pageTxidMap env address pg)) by
    intro s page
    exact h (env.blockBook.totalPages address - page) s page rfl
  intro n
  induction n with
  | zero =>
      intro s page hn
      rw [processAddressTransactions_exit env s address page (by omega)]
      rw [hn]
      dsimp only
      simp only [Nat.zero_add, List.range'_one, List.filter_cons, List.filter_nil]
      by_cases hl : env.blockBook.fetchAddressTxPage address page = []
      · simp [hl]
      · simp [hl, pageSaveFold_snd, List.length_eq_zero]
  | succ k ih =>
      intro s page hn
      have hlt : page < env.blockBook.totalPages address := by omega
      rw [processAddressTransactions_step env s address page hlt]
      dsimp only
      rw [ih (pageSaveFold env s address page).1 (page + 1) (by omega)]
      have hr : List.range' page (env.blockBook.totalPages address - page + 1)
          = page :: List.range' (page + 1)
              (env.blockBook.totalPages address - (page + 1) + 1) := by
        have he : env.blockBook.totalPages address - page + 1
            = (env.blockBook.totalPages address - (page + 1) + 1) + 1 := by omega
        rw [he, List.range'_succ]
      rw [hr]
      simp only [List.filter_cons]
      by_cases hl : env.blockBook.fetchAddressTxPage address page = []
      · simp [hl]
      · simp [hl, pageSaveFold_snd, List.length_eq_zero]

/-- Inserting a key no map entry holds appends the pair. -/
lemma insertTxidMap_fresh (m : List (String × Int)) (k : String) (v : Int)
    (h : ∀ e ∈ m, e.1 ≠ k) : insertTxidMap m k v = m ++ [(k, v)] := by
  unfold insertTxidMap keyedUpsert
  have hany : m.any (fun y => decide (y.1 = (k, v).1)) = false := by
    rw [List.any_eq_false]
    intro x hx
    simp only [decide_eq_true_eq]
    exact h x hx
  rw [hany]
  rfl

/-- Folding fresh insertions over transactions with distinct txids appends
their txid-to-date pairs in order. -/
lemma foldl_insert_fresh (env : EngineEnv) :
    ∀ (ts : List ITransaction) (m : List (String × Int)),
      (∀ t ∈ ts, ∀ e ∈ m, e.1 ≠ t.txid) →
      ((ts.map (fun t => t.txid)).Nodup) →
      ts.foldl (fun m rawTx =>
          insertTxidMap m (processRawTx env rawTx).txid (processRawTx env rawTx).date) m
        = m ++ ts.map (fun t => (t.txid, t.blockTime)) := by
  intro ts
  induction ts with
  | nil =>
      intro m _ _
      simp
  | cons t ts ih =>
      intro m hfresh hnd
      have hnd' : ¬ t.txid ∈ ts.map (fun x => x.txid) ∧ (ts.map (fun x => x.txid)).Nodup := by
        rw [List.map_cons, List.nodup_cons] at hnd
        exact hnd
      simp only [List.foldl_cons, List.map_cons]
      have hstep : insertTxidMap m (processRawTx env t).txid (processRawTx env t).date
          = m ++ [(t.txid, t.blockTime)] :=
        insertTxidMap_fresh m t.txid t.blockTime
          (fun e he => hfresh t (List.mem_cons_self t ts) e he)
      rw [hstep]
      have hfr2 : ∀ u ∈ ts, ∀ e ∈ m ++ [(t.txid, t.blockTime)], e.1 ≠ u.txid := by
        intro u hu e he
        rcases List.mem_append.mp he with h1 | h1
        · exact hfresh u (List.mem_cons_of_mem t hu) e h1
        · have h2 : e = (t.txid, t.blockTime) := List.mem_singleton.mp h1
          subst h2
          intro hc
          exact hnd'.1 (List.mem_map.mpr ⟨u, hu, hc.symm⟩)
      rw [ih (m ++ [(t.txid, t.blockTime)]) hfr2 hnd'.2]
      simp

/-- With distinct txids a page's changed-txid map is the page's
txid-to-date pairs. -/
lemma pageTxidMap_pairs (env : EngineEnv) (address : String) (page : Nat)
    (hnd : ((env.blockBook.fetchAddressTxPage address page).map (fun t => t.txid)).Nodup) :
    pageTxidMap env address page
      = (env.blockBook.fetchAddressTxPage address page).map
          (fun t => (t.txid, t.blockTime)) := by
  unfold pageTxidMap
  rw [foldl_insert_fresh env (env.blockBook.fetchAddressTxPage address page) []
    (fun t _ e he => absurd he (List.not_mem_nil e)) hnd]
  rw [List.nil_append]

/-- C5: running processAddressTransactions from page 1, a TXIDS_CHANGED
event is emitted for exactly the pages whose returned transaction list is
non-empty, in page order, each carrying that page's accumulated changed-txid
map; and when a page's txids are distinct that map holds exactly the
txid-to-date pairs of the page's transactions. -/
theorem processAddressTransactions_txids_events (env : EngineEnv) (s : Store)
    (address : String) :
    (processAddressTransactions env s address 1).2
      = ((List.range' 1 (env.blockBook.totalPages address - 1 + 1)).filter
          (fun pg => decide (¬ env.blockBook.fetchAddressTxPage address pg = []))).map
          (fun pg => EngineEvent.txidsChanged (pageTxidMap env address pg)) ∧
    (∀ page : Nat,
      ((env.blockBook.fetchAddressTxPage address page).map (fun t => t.txid)).Nodup →
      pageTxidMap env address page
        = (env.blockBook.fetchAddressTxPage address page).map
            (fun t => (t.txid, t.blockTime))) :=
  ⟨processAddressTransactions_events env address s 1,
   fun page hnd => pageTxidMap_pairs env address page hnd⟩

/-- The one transaction of the C5 witness page. -/
def txC5 : ITransaction := ⟨"t1", "h1", 10, 7, 1, [], []⟩

/-- The C5 witness environment: two pages, only the first non-empty. -/
def envC5 : EngineEnv :=
  { currencyInfo := ⟨1, "BTC"⟩,
    walletTools :=
      { getScriptPubkey := fun p => ⟨pathEnc p, none⟩,
        addressToScriptPubkey := fun a => a,
        scriptPubkeyToAddress := fun spk _ => ⟨spk, spk⟩ },
    blockBook :=
      { fetchAddressInfo := fun _ => ⟨0, 0, 0, 0⟩,
        fetchAddressTxPage := fun _ pg => if pg = 1 then [txC5] else [],
        totalPages := fun _ => 2,
        fetchAddressUtxos := fun _ => [],
        fetchTransaction := fun _ => ⟨"", "", 0, 0, 0, [], []⟩ },
    validSpkFromAddress := fun a => a }

/-- C5 witness: of the two fetched pages exactly the non-empty first emits,
with the map pairing t1 to its date. -/
theorem processAddressTransactions_txids_events_witness :
    (processAddressTransactions envC5 emptyStore "a" 1).2
      = [EngineEvent.txidsChanged [("t1", 7)]] ∧
    pageTxidMap envC5 "a" 1 = [("t1", 7)] := by
  have h := processAddressTransactions_txids_events envC5 emptyStore "a"
  constructor
  · rw [h.1]
    decide
  · exact h.2 1 (by decide)
